import Mathlib

/-!
Verification of the endless8 orchestration engine and its durable stores.

The definitions below are a shallow embedding of the Python source:

* `src/endless8/models/…` — the data model (enums and records);
* `src/endless8/history/history.py` — the `History` store;
* `src/endless8/history/knowledge_base.py` — the `KnowledgeBase` store;
* `src/endless8/engine.py` — `Engine.run` and `Engine.run_iter`.

Python/JSON values are modelled by the inductive `Json`; a line of a JSONL
file is modelled by `JsonLine`, which records whether `json.loads` succeeds
on it.  Fallible Python code is modelled with `Except String`; the carried
string stands for the exception (its message text is abbreviated, and
quotation marks appearing in real CPython messages are left out).
Timestamps and datetime fields are kept as opaque strings or omitted when
the source never serializes them.
-/

namespace Endless8

/-- `IntakeStatus` from `models/results.py` (`accepted | needs_clarification
| rejected`). -/
inductive IntakeStatus where
  | accepted
  | needs_clarification
  | rejected
deriving DecidableEq

/-- The `.value` string of an `IntakeStatus` member. -/
def IntakeStatus.value : IntakeStatus → String
  | .accepted => "accepted"
  | .needs_clarification => "needs_clarification"
  | .rejected => "rejected"

/-- `ExecutionStatus` from `models/results.py` (`success | failure | error`). -/
inductive ExecutionStatus where
  | success
  | failure
  | error
deriving DecidableEq

/-- The `.value` string of an `ExecutionStatus` member. -/
def ExecutionStatus.value : ExecutionStatus → String
  | .success => "success"
  | .failure => "failure"
  | .error => "error"

/-- `ExecutionStatus(x)`: enum construction from a value string; raises
`ValueError` on anything else. -/
def ExecutionStatus.ofValue : String → Except String ExecutionStatus
  | "success" => .ok .success
  | "failure" => .ok .failure
  | "error" => .ok .error
  | _ => .error "ValueError: ExecutionStatus"

/-- `LoopStatus` from `models/results.py`
(`completed | max_iterations | error | cancelled`). -/
inductive LoopStatus where
  | completed
  | max_iterations
  | error
  | cancelled
deriving DecidableEq

/-- The `.value` string of a `LoopStatus` member. -/
def LoopStatus.value : LoopStatus → String
  | .completed => "completed"
  | .max_iterations => "max_iterations"
  | .error => "error"
  | .cancelled => "cancelled"

/-- `KnowledgeType` from `models/knowledge.py`. -/
inductive KnowledgeType where
  | discovery
  | lesson
  | pattern
  | constraint
  | codebase
deriving DecidableEq

/-- The `.value` string of a `KnowledgeType` member. -/
def KnowledgeType.value : KnowledgeType → String
  | .discovery => "discovery"
  | .lesson => "lesson"
  | .pattern => "pattern"
  | .constraint => "constraint"
  | .codebase => "codebase"

/-- `KnowledgeType(x)`: enum construction from a value string. -/
def KnowledgeType.ofValue : String → Except String KnowledgeType
  | "discovery" => .ok .discovery
  | "lesson" => .ok .lesson
  | "pattern" => .ok .pattern
  | "constraint" => .ok .constraint
  | "codebase" => .ok .codebase
  | _ => .error "ValueError: KnowledgeType"

/-- `KnowledgeConfidence` from `models/knowledge.py`. -/
inductive KnowledgeConfidence where
  | high
  | medium
  | low
deriving DecidableEq

/-- The `.value` string of a `KnowledgeConfidence` member. -/
def KnowledgeConfidence.value : KnowledgeConfidence → String
  | .high => "high"
  | .medium => "medium"
  | .low => "low"

/-- `KnowledgeConfidence(x)`: enum construction from a value string. -/
def KnowledgeConfidence.ofValue : String → Except String KnowledgeConfidence
  | "high" => .ok .high
  | "medium" => .ok .medium
  | "low" => .ok .low
  | _ => .error "ValueError: KnowledgeConfidence"

/-- `SummaryMetadata` from `models/summary.py`.  The `error_type` field
(default `None`) is never serialized by `History.append` and never read by
the engine or the stores, so it is omitted from the embedding. -/
structure SummaryMetadata where
  tools_used : List String
  files_modified : List String
  tokens_used : Nat
  strategy_tags : List String
deriving DecidableEq

/-- `ExecutionSummary` from `models/summary.py`.  The constant `type`
field (always `"summary"`) is emitted by the serializer below; the `next`
field (default `None`) is never serialized by `History.append` and never
read by the engine or the stores, so it is omitted.  Pydantic requires
`iteration ≥ 1`; theorems state that bound as a hypothesis where needed. -/
structure ExecutionSummary where
  iteration : Nat
  approach : String
  result : ExecutionStatus
  reason : String
  artifacts : List String
  metadata : SummaryMetadata
  timestamp : String
deriving DecidableEq

/-- `Knowledge` from `models/knowledge.py`.  `applied_count` (default 0)
and `created_at` (a wall-clock timestamp) are never serialized by
`KnowledgeBase._write_item` and never read back, so they are omitted. -/
structure Knowledge where
  type : KnowledgeType
  category : String
  content : String
  example_file : Option String
  source_task : String
  confidence : KnowledgeConfidence
deriving DecidableEq

/-- `CriteriaEvaluation` from `models/results.py`; `confidence` is a float
in `[0,1]` in the source, modelled as a rational. -/
structure CriteriaEvaluation where
  criterion : String
  is_met : Bool
  evidence : String
  confidence : ℚ
deriving DecidableEq

/-- `JudgmentResult` from `models/results.py`. -/
structure JudgmentResult where
  is_complete : Bool
  evaluations : List CriteriaEvaluation
  overall_reason : String
  suggested_next_action : Option String
deriving DecidableEq

/-- Pydantic construction of a `JudgmentResult`: the `validate_consistency`
model validator raises (`none`) when `is_complete` is true but some
evaluation has `is_met == False`, mirroring
`if self.is_complete and not all(e.is_met for e in self.evaluations)`. -/
def mkJudgmentResult (is_complete : Bool) (evaluations : List CriteriaEvaluation)
    (overall_reason : String) (suggested_next_action : Option String) :
    Option JudgmentResult :=
  if is_complete && !(evaluations.all (fun e => e.is_met)) then none
  else some ⟨is_complete, evaluations, overall_reason, suggested_next_action⟩

/-- `IntakeResult`, the output record of the intake collaborator as the
engine consumes it (`engine.py` reads `status`, `clarification_questions`,
`rejection_reason` and `suggested_tools`; the CLI and the unit tests
construct the record with `suggested_tools`, and the intake prompt asks the
model to produce it, although the pydantic class in `models/results.py`
omits that field declaration). -/
structure IntakeResult where
  status : IntakeStatus
  task : String
  criteria : List String
  clarification_questions : List String
  rejection_reason : Option String
  validation_notes : Option String
  suggested_tools : List String
deriving DecidableEq

/-- `ExecutionResult` from `models/results.py` (the `semantic_metadata` and
`raw_log_path` fields are never read by the engine or stores and are
omitted). -/
structure ExecutionResult where
  status : ExecutionStatus
  output : String
  artifacts : List String
deriving DecidableEq

/-- `LoopResult` from `models/results.py` (the fields the engine
constructs and the stores serialize). -/
structure LoopResult where
  status : LoopStatus
  iterations_used : Nat
  final_judgment : Option JudgmentResult
  intake_result : Option IntakeResult
  history_path : Option String
  error_message : Option String
deriving DecidableEq

/-! ## JSON values and JSONL lines -/

/-- A JSON value as produced by `json.loads`.  Numbers are modelled as
rationals (covering ints and the floats the source writes). -/
inductive Json where
  | null
  | bool (b : Bool)
  | num (q : ℚ)
  | str (s : String)
  | arr (elems : List Json)
  | obj (fields : List (String × Json))

/-- One physical line of a JSONL file, as the loaders see it after
`line.strip()`: `blank` strips to the empty string, `bad raw` makes
`json.loads` raise `json.JSONDecodeError`, and `parsed j` is a line that
`json.loads` parses to the value `j`. -/
inductive JsonLine where
  | blank
  | bad (raw : String)
  | parsed (j : Json)

/-- `data.get(key)` on a parsed JSON object (Python dicts from
`json.loads` have unique keys). -/
def jGet (fields : List (String × Json)) (key : String) : Option Json :=
  (fields.find? (fun p => p.fst == key)).map (fun p => p.snd)

/-- `data[key]`: raises `KeyError` when absent. -/
def reqField (fields : List (String × Json)) (key : String) : Except String Json :=
  match jGet fields key with
  | some j => .ok j
  | none => .error ("KeyError: " ++ key)

/-- Pydantic validation of a `str` field against a JSON value. -/
def asStr : Json → Except String String
  | .str s => .ok s
  | _ => .error "ValidationError: str expected"

/-- Pydantic validation of an `int` field against a JSON value (a JSON
number with denominator 1; pydantic rejects non-integral floats and
non-numbers). -/
def asInt : Json → Except String Int
  | .num q => if q.den = 1 then .ok q.num else .error "ValidationError: int expected"
  | _ => .error "ValidationError: int expected"

/-- Pydantic validation of the elements of a `list[str]` field. -/
def strElems : List Json → Except String (List String)
  | [] => .ok []
  | .str s :: rest =>
      match strElems rest with
      | .ok l => .ok (s :: l)
      | .error e => .error e
  | _ :: _ => .error "ValidationError: str expected"

/-- Pydantic validation of a `list[str]` field. -/
def asStrList : Json → Except String (List String)
  | .arr xs => strElems xs
  | _ => .error "ValidationError: list expected"

/-- A `list[str]` field read with `data.get(key, [])`: the default empty
list when absent. -/
def optStrList : Option Json → Except String (List String)
  | none => .ok []
  | some j => asStrList j

/-- Reduction of a successful monadic step in the `Except` decoders. -/
theorem except_bind_ok {α β : Type} (a : α) (f : α → Except String β) :
    (Except.ok a : Except String α) >>= f = f a := rfl

/-! ## History store (`history/history.py`) -/

/-- The record dict `History.append` writes for a summary (then serialized
with `json.dumps` onto one line; the stdlib round-trips this value
exactly). -/
def summaryRecordFields (s : ExecutionSummary) : List (String × Json) :=
  [("type", .str "summary"),
   ("iteration", .num (s.iteration : ℚ)),
   ("approach", .str s.approach),
   ("result", .str s.result.value),
   ("reason", .str s.reason),
   ("artifacts", .arr (s.artifacts.map .str)),
   ("metadata", .obj [("tools_used", .arr (s.metadata.tools_used.map .str)),
                      ("files_modified", .arr (s.metadata.files_modified.map .str)),
                      ("tokens_used", .num (s.metadata.tokens_used : ℚ)),
                      ("strategy_tags", .arr (s.metadata.strategy_tags.map .str))]),
   ("timestamp", .str s.timestamp)]

/-- The summary record as the JSON value on its line. -/
def summaryRecordJson (s : ExecutionSummary) : Json :=
  .obj (summaryRecordFields s)

/-- Reconstruction of one `ExecutionSummary` from a parsed `"summary"`
record in `History._load_existing`: required fields raise `KeyError` when
absent, and pydantic validation of `ExecutionSummary` /
`SummaryMetadata` raises on ill-typed values (`iteration ≥ 1`,
`tokens_used` must be a non-negative int — `data.get(...).get("tokens_used")`
passes `None` when absent, which the non-optional int field rejects). -/
def summaryOfJson (fields : List (String × Json)) : Except String ExecutionSummary := do
  let itn ← asInt (← reqField fields "iteration")
  let iteration ←
    if 1 ≤ itn then Except.ok itn.toNat
    else Except.error "ValidationError: iteration ge 1"
  let approach ← asStr (← reqField fields "approach")
  let resultS ← asStr (← reqField fields "result")
  let result ← ExecutionStatus.ofValue resultS
  let reason ← asStr (← reqField fields "reason")
  let artifacts ← optStrList (jGet fields "artifacts")
  let mf ←
    match jGet fields "metadata" with
    | none => Except.ok []
    | some (.obj mf) => Except.ok mf
    | some _ => Except.error "AttributeError: get"
  let tools_used ← optStrList (jGet mf "tools_used")
  let files_modified ← optStrList (jGet mf "files_modified")
  let tokens_used ←
    match jGet mf "tokens_used" with
    | none => Except.error "ValidationError: tokens_used is None"
    | some j => do
        let n ← asInt j
        if 0 ≤ n then Except.ok n.toNat
        else Except.error "ValidationError: tokens_used ge 0"
  let strategy_tags ← optStrList (jGet mf "strategy_tags")
  let timestamp ←
    match jGet fields "timestamp" with
    | none => Except.ok ""
    | some j => asStr j
  Except.ok ⟨iteration, approach, result, reason, artifacts,
             ⟨tools_used, files_modified, tokens_used, strategy_tags⟩, timestamp⟩

/-- `data.get("type") == "summary"`: true only for an object whose `type`
key holds exactly the string `"summary"`. -/
def isSummaryRecord (fields : List (String × Json)) : Bool :=
  match jGet fields "type" with
  | some (.str s) => s == "summary"
  | _ => false

/-- `History._load_existing`: blank lines are skipped; a line on which
`json.loads` raises `json.JSONDecodeError` is logged as a warning and
skipped; records whose `type` is not `"summary"` are ignored; but a
`"summary"` record with missing or ill-typed fields raises
(`KeyError` / pydantic `ValidationError`, neither of which is caught), and
a parsed line that is not a JSON object raises `AttributeError` on
`data.get`. -/
def loadHistoryLines : List JsonLine → Except String (List ExecutionSummary)
  | [] => .ok []
  | .blank :: rest => loadHistoryLines rest
  | .bad _ :: rest => loadHistoryLines rest
  | .parsed j :: rest =>
      match j with
      | .obj fields =>
          if isSummaryRecord fields then
            match summaryOfJson fields with
            | .error e => .error e
            | .ok s =>
                match loadHistoryLines rest with
                | .error e => .error e
                | .ok l => .ok (s :: l)
          else loadHistoryLines rest
      | _ => .error "AttributeError: get"

/-- `History.get_recent(limit)`: the empty-store guard, then the slice
`self._summaries[max(0, len - limit):]`. -/
def historyGetRecent (summaries : List ExecutionSummary) (limit : Nat) :
    List ExecutionSummary :=
  if summaries.isEmpty then []
  else summaries.drop (summaries.length - limit)

/-- `History.get_last_iteration()`: 0 when empty, else the iteration of
the last loaded summary. -/
def getLastIteration (summaries : List ExecutionSummary) : Nat :=
  match summaries.getLast? with
  | none => 0
  | some s => s.iteration

/-- One line of `History.get_context_string` output. -/
def formatSummaryLine (s : ExecutionSummary) : String :=
  "[Iteration " ++ toString s.iteration ++ "] " ++ s.approach ++ " -> "
    ++ s.result.value ++ ": " ++ s.reason

/-- `History.get_context_string(limit)`. -/
def historyGetContextString (summaries : List ExecutionSummary) (limit : Nat) :
    String :=
  let recent := historyGetRecent summaries limit
  if recent.isEmpty then "履歴なし"
  else String.intercalate "\n" (recent.map formatSummaryLine)

/-! ## Knowledge store (`history/knowledge_base.py`) -/

/-- The record dict `KnowledgeBase._write_item` writes for one item. -/
def knowledgeRecordFields (k : Knowledge) : List (String × Json) :=
  [("type", .str k.type.value),
   ("category", .str k.category),
   ("content", .str k.content),
   ("source_task", .str k.source_task),
   ("confidence", .str k.confidence.value),
   ("example_file", match k.example_file with
                    | none => .null
                    | some s => .str s)]

/-- The knowledge record as the JSON value on its line. -/
def knowledgeRecordJson (k : Knowledge) : Json :=
  .obj (knowledgeRecordFields k)

/-- Reconstruction of one `Knowledge` item in
`KnowledgeBase._load_existing` (subscripts raise `KeyError` when absent;
enum construction raises `ValueError` on unknown values). -/
def knowledgeOfJson (fields : List (String × Json)) : Except String Knowledge := do
  let type ← KnowledgeType.ofValue (← asStr (← reqField fields "type"))
  let category ← asStr (← reqField fields "category")
  let content ← asStr (← reqField fields "content")
  let source_task ← asStr (← reqField fields "source_task")
  let confidence ← KnowledgeConfidence.ofValue (← asStr (← reqField fields "confidence"))
  let example_file ←
    match jGet fields "example_file" with
    | none => Except.ok none
    | some .null => Except.ok none
    | some (.str s) => Except.ok (some s)
    | some _ => Except.error "ValidationError: example_file"
  Except.ok ⟨type, category, content, example_file, source_task, confidence⟩

/-- `KnowledgeBase._load_existing`: blank lines are skipped, but — unlike
the History loader — there is no `try/except` around `json.loads`, so the
first line that is not valid JSON raises and aborts construction; a parsed
non-object line raises `TypeError` on subscripting. -/
def loadKnowledgeLines : List JsonLine → Except String (List Knowledge)
  | [] => .ok []
  | .blank :: rest => loadKnowledgeLines rest
  | .bad _ :: _ => .error "json.JSONDecodeError"
  | .parsed j :: rest =>
      match j with
      | .obj fields =>
          match knowledgeOfJson fields with
          | .error e => .error e
          | .ok k =>
              match loadKnowledgeLines rest with
              | .error e => .error e
              | .ok l => .ok (k :: l)
      | _ => .error "TypeError: subscript"

/-- The Python slice `xs[-limit:]` for a non-negative `limit`: for
`limit = 0` this is `xs[0:]`, the whole list. -/
def pySliceLast {α : Type} (xs : List α) (limit : Nat) : List α :=
  if limit = 0 then xs else xs.drop (xs.length - limit)

/-- `KnowledgeBase.get_all(limit)`: all items when `limit is None`, else
`self._items[-limit:]`. -/
def kbGetAll (items : List Knowledge) : Option Nat → List Knowledge
  | none => items
  | some limit => pySliceLast items limit

/-- `KnowledgeBase.get_context_string(limit)`. -/
def kbGetContextString (items : List Knowledge) (limit : Nat) : String :=
  let sel := kbGetAll items (some limit)
  if sel.isEmpty then "ナレッジなし"
  else String.intercalate "\n"
    (sel.map (fun k => "[" ++ k.type.value ++ "] " ++ k.content))

/-! ## Concrete sample records used by counterexamples and witnesses -/

/-- A well-formed knowledge item. -/
def sampleKnowledge : Knowledge :=
  ⟨.discovery, "testing", "pytest is configured", none, "task-1", .medium⟩

/-- A second well-formed knowledge item. -/
def sampleKnowledge2 : Knowledge :=
  ⟨.lesson, "error_handling", "retry on timeout", some "a.py", "task-2", .high⟩

/-- A well-formed execution summary at iteration 1. -/
def sampleSummary : ExecutionSummary :=
  ⟨1, "direct approach", .success, "it worked", ["out.txt"],
   ⟨["Bash"], ["out.txt"], 120, ["simple"]⟩, "2026-01-27T10:00:00Z"⟩

/-- An evaluation whose criterion is unmet. -/
def sampleUnmetEvaluation : CriteriaEvaluation :=
  ⟨"tests pass", false, "2 tests failing", (1 : ℚ) / 2⟩

/-! ## Claim C7 -/

/-- Claim C7: for every `JudgmentResult` accepted by pydantic validation,
`is_complete = true` implies every evaluation has `is_met = true`; and
constructing one with `is_complete = true` while some evaluation has
`is_met = false` fails validation. -/
theorem judgment_is_complete_consistency :
    (∀ (ic : Bool) (evals : List CriteriaEvaluation) (r : String)
        (na : Option String) (j : JudgmentResult),
        mkJudgmentResult ic evals r na = some j →
        j.is_complete = true → ∀ e ∈ j.evaluations, e.is_met = true)
    ∧ (∀ (ic : Bool) (evals : List CriteriaEvaluation) (r : String)
        (na : Option String),
        ic = true → (∃ e ∈ evals, e.is_met = false) →
        mkJudgmentResult ic evals r na = none) := by
  constructor
  · intro ic evals r na j hmk hic e he
    unfold mkJudgmentResult at hmk
    by_cases hcond : (ic && !(evals.all (fun e => e.is_met))) = true
    · rw [if_pos hcond] at hmk
      cases hmk
    · rw [if_neg hcond] at hmk
      obtain rfl : (⟨ic, evals, r, na⟩ : JudgmentResult) = j := by
        injection hmk
      have hic' : ic = true := hic
      have hall : evals.all (fun x => x.is_met) = true := by
        cases hall : evals.all (fun x => x.is_met)
        · exact absurd (by rw [hic', hall]; rfl) hcond
        · rfl
      have hmet := List.all_eq_true.mp hall e he
      simpa using hmet
  · intro ic evals r na hic ⟨e, he, hmet⟩
    subst hic
    unfold mkJudgmentResult
    have : evals.all (fun e => e.is_met) = false := by
      rw [List.all_eq_false]
      exact ⟨e, he, by simp [hmet]⟩
    simp [this]

/-- Witness for C7 at concrete inputs: validation rejects
`is_complete = true` with an unmet evaluation. -/
theorem judgment_is_complete_consistency_witness :
    mkJudgmentResult true [sampleUnmetEvaluation] "done" none = none :=
  judgment_is_complete_consistency.2 true [sampleUnmetEvaluation] "done" none rfl
    ⟨sampleUnmetEvaluation, by simp, rfl⟩

/-! ## Claim C4 -/

/-- Counterexample to C4 as stated: the KnowledgeBase loader is not
tolerant — a single line that is not valid JSON aborts the whole load
(raising `json.JSONDecodeError`), even though a well-formed record follows
it, instead of skipping the bad line with a warning. -/
theorem kb_load_aborts_on_bad_line :
    loadKnowledgeLines
      [JsonLine.bad "not json", JsonLine.parsed (knowledgeRecordJson sampleKnowledge)]
      = .error "json.JSONDecodeError" := rfl

/-- Claim C4, amended: the History loader skips (with a warning) every
line on which `json.loads` fails, so such a corrupted line never aborts
its load; the KnowledgeBase loader is strict — the first such line raises
and aborts construction. -/
theorem store_load_bad_line_handling :
    ∀ (raw : String) (rest : List JsonLine),
      loadHistoryLines (JsonLine.bad raw :: rest) = loadHistoryLines rest
      ∧ loadKnowledgeLines (JsonLine.bad raw :: rest) = .error "json.JSONDecodeError" :=
  fun _ _ => ⟨rfl, rfl⟩

/-! ## Claim C5 -/

/-- The empty-store guard in `get_recent` is redundant: the function always
equals the Python slice `summaries[max(0, len - limit):]`. -/
theorem historyGetRecent_eq_drop (summaries : List ExecutionSummary) (limit : Nat) :
    historyGetRecent summaries limit
      = summaries.drop (summaries.length - limit) := by
  unfold historyGetRecent
  cases summaries <;> simp

/-- Counterexample to C5 as stated: with one stored item and
`limit = 0 ≤ N = 1`, `KnowledgeBase.get_all(0)` returns 1 item, not
exactly `limit = 0` items (`items[-0:]` is the whole list in Python). -/
theorem kb_get_all_zero_returns_all :
    (kbGetAll [sampleKnowledge] (some 0)).length = 1
    ∧ ¬ (kbGetAll [sampleKnowledge] (some 0)).length = 0 := by
  constructor
  · rfl
  · decide

/-- Claim C5, amended: `History.get_recent(limit)` returns exactly
`min limit N` summaries for every `limit ≥ 0`, as a suffix of the stored
list (hence in stored — ascending-iteration — order);
`KnowledgeBase.get_all(limit)` returns exactly `min limit N` items for
every `limit ≥ 1` and all `N` items when `limit = 0` (and when `limit` is
`None`), likewise as a suffix in insertion order. -/
theorem context_window_limits :
    ∀ (summaries : List ExecutionSummary) (items : List Knowledge) (limit : Nat),
      (historyGetRecent summaries limit).length = min limit summaries.length
      ∧ historyGetRecent summaries limit <:+ summaries
      ∧ (kbGetAll items (some limit)).length
          = (if limit = 0 then items.length else min limit items.length)
      ∧ kbGetAll items (some limit) <:+ items
      ∧ kbGetAll items none = items := by
  intro summaries items limit
  refine ⟨?_, ?_, ?_, ?_, rfl⟩
  · rw [historyGetRecent_eq_drop, List.length_drop]
    omega
  · rw [historyGetRecent_eq_drop]
    exact List.drop_suffix _ _
  · unfold kbGetAll pySliceLast
    by_cases h : limit = 0
    · simp [h]
    · simp only [h, if_false, List.length_drop]
      omega
  · unfold kbGetAll pySliceLast
    by_cases h : limit = 0
    · simp [h]
    · simp only [h, if_false]
      exact List.drop_suffix _ _

/-! ## Claim C9: store round-trips -/

/-- Decoding a list of encoded strings recovers the list. -/
theorem strElems_map_str (xs : List String) :
    strElems (xs.map Json.str) = .ok xs := by
  induction xs with
  | nil => rfl
  | cons x xs ih => simp [strElems, ih]

/-- The record written by `History.append` carries the `"summary"` type tag. -/
theorem isSummaryRecord_encode (s : ExecutionSummary) :
    isSummaryRecord (summaryRecordFields s) = true := by
  simp [isSummaryRecord, jGet, summaryRecordFields]

/-- `History._load_existing` decodes the record written by `History.append`
back to the identical summary (pydantic requires the appended summary to
have `iteration ≥ 1`). -/
theorem summaryOfJson_encode (s : ExecutionSummary) (h : 1 ≤ s.iteration) :
    summaryOfJson (summaryRecordFields s) = .ok s := by
  obtain ⟨it, ap, res, re, arts, ⟨tu, fm, tk, tags⟩, ts⟩ := s
  simp only at h
  cases res <;>
    simp [summaryOfJson, summaryRecordFields, reqField, jGet, asStr, asInt,
          ExecutionStatus.ofValue, ExecutionStatus.value, optStrList, asStrList,
          strElems_map_str, except_bind_ok, Rat.num_natCast, Rat.den_natCast,
          Int.toNat_natCast, Nat.one_le_cast, Int.natCast_nonneg, h]

/-- `KnowledgeBase._load_existing` decodes the record written by
`KnowledgeBase._write_item` back to the identical item. -/
theorem knowledgeOfJson_encode (k : Knowledge) :
    knowledgeOfJson (knowledgeRecordFields k) = .ok k := by
  obtain ⟨ty, cat, con, ex, src, conf⟩ := k
  cases ty <;> cases conf <;> cases ex <;>
    simp [knowledgeOfJson, knowledgeRecordFields, reqField, jGet, asStr,
          except_bind_ok, KnowledgeType.ofValue, KnowledgeType.value,
          KnowledgeConfidence.ofValue, KnowledgeConfidence.value]

/-- Appending lines to a history file whose prefix loads cleanly loads the
prefix followed by whatever the new lines decode to. -/
theorem loadHistoryLines_append (xs ys : List JsonLine) :
    ∀ (l : List ExecutionSummary), loadHistoryLines xs = .ok l →
      loadHistoryLines (xs ++ ys)
        = Except.map (fun m => l ++ m) (loadHistoryLines ys) := by
  induction xs with
  | nil =>
      intro l h
      obtain rfl : ([] : List ExecutionSummary) = l := by injection h
      cases hys : loadHistoryLines ys <;> simp [Except.map, hys]
  | cons x rest ih =>
      intro l h
      cases x with
      | blank => exact ih l h
      | bad raw => exact ih l h
      | parsed j =>
          cases j with
          | obj fields =>
              by_cases ht : isSummaryRecord fields
              · simp only [loadHistoryLines, List.cons_append, if_pos ht] at h ⊢
                cases hs : summaryOfJson fields with
                | error e => rw [hs] at h; cases h
                | ok s =>
                    rw [hs] at h
                    cases hr : loadHistoryLines rest with
                    | error e => rw [hr] at h; cases h
                    | ok l0 =>
                        rw [hr] at h
                        obtain rfl : s :: l0 = l := by injection h
                        rw [List.append_eq, ih l0 hr]
                        cases hys : loadHistoryLines ys <;>
                          simp [Except.map, hys]
              · simp only [loadHistoryLines, List.cons_append, if_neg ht] at h ⊢
                exact ih l h
          | null => cases h
          | bool b => cases h
          | num q => cases h
          | str s => cases h
          | arr elems => cases h

/-- Same appending property for the knowledge file. -/
theorem loadKnowledgeLines_append (xs ys : List JsonLine) :
    ∀ (l : List Knowledge), loadKnowledgeLines xs = .ok l →
      loadKnowledgeLines (xs ++ ys)
        = Except.map (fun m => l ++ m) (loadKnowledgeLines ys) := by
  induction xs with
  | nil =>
      intro l h
      obtain rfl : ([] : List Knowledge) = l := by injection h
      cases hys : loadKnowledgeLines ys <;> simp [Except.map, hys]
  | cons x rest ih =>
      intro l h
      cases x with
      | blank => exact ih l h
      | bad raw => cases h
      | parsed j =>
          cases j with
          | obj fields =>
              simp only [loadKnowledgeLines, List.cons_append] at h ⊢
              cases hs : knowledgeOfJson fields with
              | error e => rw [hs] at h; cases h
              | ok k =>
                  rw [hs] at h
                  cases hr : loadKnowledgeLines rest with
                  | error e => rw [hr] at h; cases h
                  | ok l0 =>
                      rw [hr] at h
                      obtain rfl : k :: l0 = l := by injection h
                      rw [List.append_eq, ih l0 hr]
                      cases hys : loadKnowledgeLines ys <;>
                        simp [Except.map, hys]
          | null => cases h
          | bool b => cases h
          | num q => cases h
          | str s => cases h
          | arr elems => cases h

/-- Claim C9: appending an `ExecutionSummary` via `History.append` (resp. a
`Knowledge` item via `KnowledgeBase.add`) and constructing a fresh store
over the same file yields the appended record back — same iteration, same
outcome, and same content (indeed the identical embedded record; the only
fields not recovered are the pydantic-only defaults the stores never
serialize: `ExecutionSummary.next`, `Knowledge.applied_count`,
`Knowledge.created_at`). -/
theorem store_roundtrip
    (hist : List JsonLine) (loaded : List ExecutionSummary) (s : ExecutionSummary)
    (kb : List JsonLine) (kitems : List Knowledge) (k : Knowledge)
    (hh : loadHistoryLines hist = .ok loaded) (hs : 1 ≤ s.iteration)
    (hk : loadKnowledgeLines kb = .ok kitems) :
    loadHistoryLines (hist ++ [JsonLine.parsed (summaryRecordJson s)])
        = .ok (loaded ++ [s])
    ∧ loadKnowledgeLines (kb ++ [JsonLine.parsed (knowledgeRecordJson k)])
        = .ok (kitems ++ [k]) := by
  constructor
  · rw [loadHistoryLines_append hist _ loaded hh]
    have h1 : loadHistoryLines [JsonLine.parsed (summaryRecordJson s)] = .ok [s] := by
      simp only [loadHistoryLines, summaryRecordJson, if_pos (isSummaryRecord_encode s),
                 summaryOfJson_encode s hs]
    rw [h1]
    rfl
  · rw [loadKnowledgeLines_append kb _ kitems hk]
    have h1 : loadKnowledgeLines [JsonLine.parsed (knowledgeRecordJson k)] = .ok [k] := by
      simp only [loadKnowledgeLines, knowledgeRecordJson, knowledgeOfJson_encode k]
    rw [h1]
    rfl

/-- Witness for C9: the round-trip evaluated over initially empty stores at
the sample records. -/
theorem store_roundtrip_witness :
    loadHistoryLines [JsonLine.parsed (summaryRecordJson sampleSummary)]
        = .ok [sampleSummary]
    ∧ loadKnowledgeLines [JsonLine.parsed (knowledgeRecordJson sampleKnowledge2)]
        = .ok [sampleKnowledge2] := by
  have h := store_roundtrip [] [] sampleSummary [] [] sampleKnowledge2 rfl
    (by decide) rfl
  simpa using h

/-! ## Engine (`engine.py`): shared data -/

/-- `ExecutionContext` as `Engine.run` / `Engine.run_iter` build it. -/
structure ExecutionContext where
  task : String
  criteria : List String
  iteration : Nat
  history_context : String
  knowledge_context : String
deriving DecidableEq

/-- `JudgmentContext` as the engine builds it. -/
structure JudgmentContext where
  task : String
  criteria : List String
  execution_summary : ExecutionSummary
  custom_prompt : Option String
deriving DecidableEq

/-- `TaskInput` from `models/task.py` (pydantic enforces a non-empty task,
non-empty criteria and `1 ≤ max_iterations ≤ 100`; those bounds appear as
hypotheses where a theorem needs them). -/
structure TaskInput where
  task : String
  criteria : List String
  max_iterations : Nat

/-- The slice of `EngineConfig` (`config/settings.py`) the engine reads:
`claude_options.allowed_tools`, the two context-window sizes,
`prompts.judgment` and the `persist` path recorded in results. -/
structure EngineConfig where
  allowed_tools : List String
  history_context_size : Nat
  knowledge_context_size : Nat
  judgment_prompt : Option String
  persist : Option String

/-- `ProgressEventType` from `models/progress.py`. -/
inductive ProgressEventType where
  | task_start
  | task_end
  | iteration_start
  | iteration_end
  | intake_complete
  | execution_complete
  | judgment_complete
deriving DecidableEq

/-- A progress event as the engine emits it, reduced to its event type and
iteration number (message text, timestamp and the `data` payload are
presentation-only and not modelled). -/
structure EmittedEvent where
  event_type : ProgressEventType
  iteration : Option Nat
deriving DecidableEq

/-- The on-disk `History` store (`history.jsonl` plus the in-memory
`_summaries` cache), together with the `output.md` file that lives in the
same directory (`outputFile = none` models the file being absent). -/
structure HistoryStore where
  lines : List JsonLine
  summaries : List ExecutionSummary
  outputFile : Option String

/-- The on-disk `KnowledgeBase` store (`knowledge.jsonl` plus the
in-memory `_items` cache). -/
structure KBStore where
  lines : List JsonLine
  items : List Knowledge

/-- The four capability collaborators, each optional exactly as in
`Engine.__init__`; a call either returns a value or raises (`.error`). -/
structure Collaborators where
  intake : Option (String → List String → Except String IntakeResult)
  execute : Option (ExecutionContext → Except String ExecutionResult)
  summarize : Option (ExecutionResult → Nat → List String →
      Except String (ExecutionSummary × List Knowledge))
  judge : Option (JudgmentContext → Except String JudgmentResult)

/-- Environment behavior outside the engine's control: whether `cancel()`
has been observed by the time the boundary check of iteration `i` runs
(`cancelAt i`), whether the `n`-th store write raises `OSError` and with
which message (`appendFault n`), and the text `traceback.format_exc()`
renders for the exception caught by `run` (`traceText`). -/
structure Oracle where
  cancelAt : Nat → Bool
  appendFault : Nat → Option String
  traceText : String

/-- The engine's mutable state plus the attached stores, and two ghost
fields read only by theorems: `execCalls` counts invocations of the
Execution collaborator and `firstIteration` records the number of the
first iteration whose body was entered. -/
structure EngState where
  current_iteration : Nat
  is_running : Bool
  history_mem : List ExecutionSummary
  knowledge_mem : List Knowledge
  store : Option HistoryStore
  kb : Option KBStore
  writeCount : Nat
  events : List EmittedEvent
  execCalls : Nat
  firstIteration : Option Nat

/-- `Engine._emit_progress`: the observer callback is modelled as
recording the event (no claim quantifies over a failing observer, so
emission is infallible here). -/
def pushEvent (st : EngState) (t : ProgressEventType) (iteration : Option Nat) :
    EngState :=
  {st with events := st.events ++ [⟨t, iteration⟩]}

/-- `Engine._get_history_context`: the persisted store when attached, else
the in-memory fallback over `self._history[-size:]`. -/
def getHistoryContext (cfg : EngineConfig) (st : EngState) : String :=
  match st.store with
  | some hs => historyGetContextString hs.summaries cfg.history_context_size
  | none =>
      if st.history_mem.isEmpty then "履歴なし"
      else String.intercalate "\n"
        ((pySliceLast st.history_mem cfg.history_context_size).map formatSummaryLine)

/-- `Engine._get_knowledge_context`: the knowledge base when attached,
else the in-memory fallback over `self._knowledge[-limit:]`. -/
def getKnowledgeContext (cfg : EngineConfig) (st : EngState) : String :=
  match st.kb with
  | some kb => kbGetContextString kb.items cfg.knowledge_context_size
  | none =>
      if st.knowledge_mem.isEmpty then "ナレッジなし"
      else String.intercalate "\n"
        ((pySliceLast st.knowledge_mem cfg.knowledge_context_size).map
          (fun k => "[" ++ k.type.value ++ "] " ++ k.content))

/-! ## Engine: persistence helpers -/

/-- Encoding of an `Option String` field in a record dict. -/
def optStrJson : Option String → Json
  | none => .null
  | some s => .str s

/-- One serialized `CriteriaEvaluation`, as `History.append_judgment` and
`append_final_result` build it. -/
def evaluationJson (e : CriteriaEvaluation) : Json :=
  .obj [("criterion", .str e.criterion), ("is_met", .bool e.is_met),
        ("evidence", .str e.evidence), ("confidence", .num e.confidence)]

/-- The record dict `History.append_judgment` writes. -/
def judgmentRecordJson (jr : JudgmentResult) (iteration : Nat) : Json :=
  .obj [("type", .str "judgment"),
        ("iteration", .num (iteration : ℚ)),
        ("is_complete", .bool jr.is_complete),
        ("evaluations", .arr (jr.evaluations.map evaluationJson)),
        ("overall_reason", .str jr.overall_reason),
        ("suggested_next_action", optStrJson jr.suggested_next_action)]

/-- The `final_judgment` payload of a `final_result` record. -/
def judgmentDataJson (jr : JudgmentResult) : Json :=
  .obj [("is_complete", .bool jr.is_complete),
        ("evaluations", .arr (jr.evaluations.map evaluationJson)),
        ("overall_reason", .str jr.overall_reason),
        ("suggested_next_action", optStrJson jr.suggested_next_action)]

/-- The record dict `History.append_final_result` writes. -/
def finalResultRecordJson (r : LoopResult) : Json :=
  .obj [("type", .str "final_result"),
        ("status", .str r.status.value),
        ("iterations_used", .num (r.iterations_used : ℚ)),
        ("final_judgment", match r.final_judgment with
                           | none => .null
                           | some jr => judgmentDataJson jr),
        ("history_path", optStrJson r.history_path),
        ("error_message", optStrJson r.error_message)]

/-- One attempted write of a line to `history.jsonl` (shared tail of
`History.append`, `append_judgment` and `append_final_result`): the write
counter advances, and the write either appends the line or raises the
`OSError` the oracle assigns to this write. -/
def writeHistoryLine (o : Oracle) (st : EngState) (hs : HistoryStore) (j : Json) :
    EngState × Option String :=
  match o.appendFault st.writeCount with
  | some msg => ({st with writeCount := st.writeCount + 1}, some msg)
  | none =>
      ({st with writeCount := st.writeCount + 1,
                store := some {hs with lines := hs.lines ++ [JsonLine.parsed j]}},
       none)

/-- `History.append` as the engine calls it (guarded on an attached
store): the in-memory `_summaries` list is extended before the file write,
so it grows even when the write then raises. -/
def persistSummary (o : Oracle) (st : EngState) (s : ExecutionSummary) :
    EngState × Option String :=
  match st.store with
  | none => (st, none)
  | some hs =>
      let hs := {hs with summaries := hs.summaries ++ [s]}
      let st := {st with store := some hs}
      writeHistoryLine o st hs (summaryRecordJson s)

/-- `History.append_judgment` as the engine calls it. -/
def persistJudgment (o : Oracle) (st : EngState) (jr : JudgmentResult)
    (iteration : Nat) : EngState × Option String :=
  match st.store with
  | none => (st, none)
  | some hs => writeHistoryLine o st hs (judgmentRecordJson jr iteration)

/-- `History.append_final_result` as the engine calls it. -/
def persistFinalResult (o : Oracle) (st : EngState) (r : LoopResult) :
    EngState × Option String :=
  match st.store with
  | none => (st, none)
  | some hs => writeHistoryLine o st hs (finalResultRecordJson r)

/-- One attempted write of a line to `knowledge.jsonl`
(`KnowledgeBase._write_item`). -/
def writeKnowledgeLine (o : Oracle) (st : EngState) (kb : KBStore) (k : Knowledge) :
    EngState × Option String :=
  match o.appendFault st.writeCount with
  | some msg => ({st with writeCount := st.writeCount + 1}, some msg)
  | none =>
      ({st with writeCount := st.writeCount + 1,
                kb := some {kb with lines := kb.lines ++ [JsonLine.parsed (knowledgeRecordJson k)]}},
       none)

/-- `KnowledgeBase.add`: extend the in-memory list, then write one line. -/
def kbAdd (o : Oracle) (st : EngState) (k : Knowledge) : EngState × Option String :=
  match st.kb with
  | none => (st, none)
  | some kb =>
      let kb := {kb with items := kb.items ++ [k]}
      let st := {st with kb := some kb}
      writeKnowledgeLine o st kb k

/-- `KnowledgeBase.add_many`: one `add` (one disk write) per item; a crash
after `n` of `m` writes still persists the first `n`. -/
def kbAddMany (o : Oracle) : EngState → List Knowledge → EngState × Option String
  | st, [] => (st, none)
  | st, k :: ks =>
      match kbAdd o st k with
      | (st1, some msg) => (st1, some msg)
      | (st1, none) => kbAddMany o st1 ks

/-- The attribute access `self._history_store.path` the engine performs
before writing `output.md`: the `History` class defines only the private
`_path` attribute and no `path` property, so this lookup raises
`AttributeError` (the test suite — `test_output_md_saved_after_run`,
`test_output_md_overwritten_each_iteration`, `test_output_md_saved_in_run_iter`
— expects the write to succeed, so the missing accessor is a defect in the
source, modelled faithfully here). -/
def historyPathLookup (_hs : HistoryStore) : Except String String :=
  .error "AttributeError: History object has no attribute path"

/-- The `output.md` write after a successful execution
(`output_path.write_text(execution_result.output)` on
`self._history_store.path.parent / "output.md"`), performed only when a
history store is attached; the `.ok` branch records the intended
overwrite. -/
def saveOutputMd (st : EngState) (output : String) : EngState × Option String :=
  match st.store with
  | none => (st, none)
  | some hs =>
      match historyPathLookup hs with
      | .error msg => (st, some msg)
      | .ok _ => ({st with store := some {hs with outputFile := some output}}, none)

/-! ## Engine: intake gate -/

/-- Lexicographic comparison of code-point lists (how Python compares
strings in `sorted(...)`). -/
def charListLe : List Char → List Char → Bool
  | [], _ => true
  | _ :: _, [] => false
  | a :: as, b :: bs =>
      if a.val < b.val then true
      else if b.val < a.val then false
      else charListLe as bs

/-- Python string `<=` on code points. -/
def pyStrLe (a b : String) : Bool :=
  charListLe a.toList b.toList

/-- Insertion into a sorted list. -/
def insertSorted (a : String) : List String → List String
  | [] => [a]
  | b :: bs => if pyStrLe a b then a :: b :: bs else b :: insertSorted a bs

/-- Insertion sort. -/
def pySortedList : List String → List String
  | [] => []
  | a :: as => insertSorted a (pySortedList as)

/-- `sorted(set(xs))` as Python renders a tool set in a message. -/
def pySortedSet (xs : List String) : List String :=
  pySortedList xs.dedup

/-- `missing_tools = set(suggested_tools) - set(allowed_tools)`, as a
filtered list; the engine only tests it for emptiness and renders
`sorted(missing_tools)`. -/
def missingToolsList (cfg : EngineConfig) (ir : IntakeResult) : List String :=
  ir.suggested_tools.filter (fun t => !(cfg.allowed_tools.contains t))

/-- The tool-mismatch `error_message` `Engine.run` builds. -/
def toolMismatchMessage (cfg : EngineConfig) (ir : IntakeResult) : String :=
  "Tool mismatch: required tools ["
    ++ String.intercalate ", " (pySortedSet (missingToolsList cfg ir))
    ++ "] are not in allowed_tools ["
    ++ String.intercalate ", " (pySortedSet cfg.allowed_tools) ++ "]"

/-- The rejection check at the end of the intake gate: reached only for
intakes that are not `needs_clarification` and passed the tool check. -/
def rejectedGate (st : EngState) (ir : IntakeResult) :
    EngState × Except String (Option LoopResult) :=
  if ir.status = .rejected then
    let st := {st with is_running := false}
    let st := pushEvent st .task_end none
    (st, .ok (some ⟨.error, 0, none, some ir, none,
        some ("Task rejected: " ++ ir.rejection_reason.getD "Unknown reason")⟩))
  else (st, .ok none)

/-- The intake gate of `Engine.run` (`engine.py:256-326`): when an intake
agent is configured, call it, emit `intake_complete`, and test — in this
order — `needs_clarification`, then tool compatibility (only when
`suggested_tools` is non-empty), then `rejected`.  Returns `some result`
when the gate terminates the run, `none` when the loop may start. -/
def intakeGate (C : Collaborators) (cfg : EngineConfig) (inp : TaskInput)
    (st : EngState) : EngState × Except String (Option LoopResult) :=
  match C.intake with
  | none => (st, .ok none)
  | some f =>
      match f inp.task inp.criteria with
      | .error msg => (st, .error msg)
      | .ok ir =>
          let st := pushEvent st .intake_complete none
          if ir.status = .needs_clarification then
            let st := {st with is_running := false}
            let st := pushEvent st .task_end none
            (st, .ok (some ⟨.error, 0, none, some ir, none,
                some ("Task requires clarification: "
                  ++ String.intercalate ", " ir.clarification_questions)⟩))
          else if ir.suggested_tools.isEmpty then rejectedGate st ir
          else if (missingToolsList cfg ir).isEmpty then rejectedGate st ir
          else
            let st := {st with is_running := false}
            let st := pushEvent st .task_end none
            (st, .ok (some ⟨.error, 0, none, some ir, none,
                some (toolMismatchMessage cfg ir)⟩))

/-! ## Engine: the `run` loop -/

/-- How the `try` block of `Engine.run` ends: with a returned `LoopResult`
or with an exception for the `except` handler. -/
inductive LoopOutcome where
  | done (r : LoopResult)
  | raised (msg : String)

/-- `self._start_iteration` as observed by `run`: 1 on a fresh engine;
when `resume` is requested and a store is attached,
`_initialize_from_history` sets it to `get_last_iteration() + 1` provided
the store is non-empty. -/
def startIteration (resume : Bool) (st : EngState) : Nat :=
  if resume then
    match st.store with
    | some hs =>
        if getLastIteration hs.summaries > 0 then getLastIteration hs.summaries + 1
        else 1
    | none => 1
  else 1

/-- The guard `if self._knowledge_base and knowledge_list:` followed by
`add_many`. -/
def kbPersistStep (o : Oracle) (st : EngState) (ks : List Knowledge) :
    EngState × Option String :=
  if ks.isEmpty then (st, none) else kbAddMany o st ks

/-- The judgment step of one `run` iteration: call the judgment
collaborator (raising `RuntimeError` when absent), emit
`judgment_complete` and `iteration_end`, persist the judgment. -/
def runJudgePhase (C : Collaborators) (cfg : EngineConfig) (inp : TaskInput)
    (o : Oracle) (i : Nat) (s : ExecutionSummary) (st : EngState) :
    EngState × Except String (ExecutionSummary × JudgmentResult) :=
  match C.judge with
  | none => (st, .error "RuntimeError: Judgment agent not configured")
  | some hJ =>
      match hJ ⟨inp.task, inp.criteria, s, cfg.judgment_prompt⟩ with
      | .error msg => (st, .error msg)
      | .ok jr =>
          let st := pushEvent st .judgment_complete (some i)
          let st := pushEvent st .iteration_end (some i)
          match persistJudgment o st jr i with
          | (st, some msg) => (st, .error msg)
          | (st, none) => (st, .ok (s, jr))

/-- The summary step of one `run` iteration: call the summary collaborator
(raising `RuntimeError` when absent), extend the in-memory lists, persist
the summary and the knowledge items, then judge. -/
def runSummaryPhase (C : Collaborators) (cfg : EngineConfig) (inp : TaskInput)
    (o : Oracle) (i : Nat) (er : ExecutionResult) (st : EngState) :
    EngState × Except String (ExecutionSummary × JudgmentResult) :=
  match C.summarize with
  | none => (st, .error "RuntimeError: Summary agent not configured")
  | some g =>
      match g er i inp.criteria with
      | .error msg => (st, .error msg)
      | .ok (s, ks) =>
          let st := {st with history_mem := st.history_mem ++ [s],
                             knowledge_mem := st.knowledge_mem ++ ks}
          match persistSummary o st s with
          | (st, some msg) => (st, .error msg)
          | (st, none) =>
              match kbPersistStep o st ks with
              | (st, some msg) => (st, .error msg)
              | (st, none) => runJudgePhase C cfg inp o i s st

/-- The execution step of one `run` iteration: call the execution
collaborator (raising `RuntimeError` when absent), emit
`execution_complete`, write `output.md`, then summarize. -/
def runExecPhase (C : Collaborators) (cfg : EngineConfig) (inp : TaskInput)
    (o : Oracle) (i : Nat) (ctx : ExecutionContext) (st : EngState) :
    EngState × Except String (ExecutionSummary × JudgmentResult) :=
  match C.execute with
  | none => (st, .error "RuntimeError: Execution agent not configured")
  | some f =>
      let st := {st with execCalls := st.execCalls + 1}
      match f ctx with
      | .error msg => (st, .error msg)
      | .ok er =>
          let st := pushEvent st .execution_complete (some i)
          match saveOutputMd st er.output with
          | (st, some msg) => (st, .error msg)
          | (st, none) => runSummaryPhase C cfg inp o i er st

/-- The body of one `run` iteration (`engine.py:351-439` up to the
completeness check): set the iteration counter, emit `iteration_start`,
build the context, then execute / summarize / judge.  Any collaborator
exception, missing agent (`RuntimeError`), store-write `OSError` or the
`output.md` `AttributeError` surfaces as `.error`. -/
def runIterationBody (C : Collaborators) (cfg : EngineConfig) (inp : TaskInput)
    (o : Oracle) (i : Nat) (st : EngState) :
    EngState × Except String (ExecutionSummary × JudgmentResult) :=
  let st := {st with current_iteration := i,
                     firstIteration := st.firstIteration <|> some i}
  let st := pushEvent st .iteration_start (some i)
  let ctx : ExecutionContext :=
    ⟨inp.task, inp.criteria, i, getHistoryContext cfg st, getKnowledgeContext cfg st⟩
  runExecPhase C cfg inp o i ctx st

/-- The `for iteration in range(start, max_iter + 1)` loop of `Engine.run`
(fuel counts the remaining iterations): check cancellation at the
boundary, run the body, finish on a complete judgment, and fall through to
the `max_iterations` terminal when the range is exhausted.  Terminal
branches persist a final record; a write failure there raises into the
`except` handler. -/
def runLoop (C : Collaborators) (cfg : EngineConfig) (inp : TaskInput) (o : Oracle) :
    Nat → Nat → Option JudgmentResult → EngState → EngState × LoopOutcome
  | 0, _i, fj, st =>
      let st := {st with is_running := false}
      let st := pushEvent st .task_end (some inp.max_iterations)
      let r : LoopResult := ⟨.max_iterations, inp.max_iterations, fj, none, cfg.persist, none⟩
      (match persistFinalResult o st r with
       | (st, some msg) => (st, .raised msg)
       | (st, none) => (st, .done r))
  | fuel + 1, i, fj, st =>
      if o.cancelAt i then
        let st := {st with is_running := false}
        let st := pushEvent st .task_end (some i)
        let r : LoopResult := ⟨.cancelled, st.current_iteration, fj, none, none, none⟩
        (match persistFinalResult o st r with
         | (st, some msg) => (st, .raised msg)
         | (st, none) => (st, .done r))
      else
        match runIterationBody C cfg inp o i st with
        | (st, .error msg) => (st, .raised msg)
        | (st, .ok (_s, jr)) =>
            if jr.is_complete then
              let st := {st with is_running := false}
              let st := pushEvent st .task_end (some i)
              let r : LoopResult := ⟨.completed, i, some jr, none, cfg.persist, none⟩
              (match persistFinalResult o st r with
               | (st, some msg) => (st, .raised msg)
               | (st, none) => (st, .done r))
            else
              runLoop C cfg inp o fuel (i + 1) (some jr) st

/-- The `try` block of `Engine.run`: resume initialization, `task_start`,
the intake gate, then the loop. -/
def engineTryBody (C : Collaborators) (cfg : EngineConfig) (inp : TaskInput)
    (o : Oracle) (resume : Bool) (st : EngState) : EngState × LoopOutcome :=
  let start := startIteration resume st
  let st := pushEvent st .task_start none
  match intakeGate C cfg inp st with
  | (st, .error msg) => (st, .raised msg)
  | (st, .ok (some r)) => (st, .done r)
  | (st, .ok none) =>
      runLoop C cfg inp o (inp.max_iterations + 1 - start) start none st

/-- The `except` handler of `Engine.run` (`engine.py:483-508`): log, emit
`task_end`, build
`LoopResult(error, iterations_used=self._current_iteration,
error_message=f"{e}\n\nStack trace:\n{stack_trace}")` and best-effort
persist it; a failure of that final write propagates out of `run`
(modelled as `.error`). -/
def runExceptBlock (o : Oracle) (msg : String) (st : EngState) :
    EngState × Except String LoopResult :=
  let st := {st with is_running := false}
  let st := pushEvent st .task_end
    (if st.current_iteration > 0 then some st.current_iteration else none)
  let r : LoopResult := ⟨.error, st.current_iteration, none, none, none,
      some (msg ++ "\n\nStack trace:\n" ++ o.traceText)⟩
  match persistFinalResult o st r with
  | (st, some msg2) => (st, .error msg2)
  | (st, none) => (st, .ok r)

/-- `Engine.run` (`engine.py:214-508`): reset the running state, run the
`try` block, and on an exception run the `except` handler. -/
def engineRun (C : Collaborators) (cfg : EngineConfig) (inp : TaskInput)
    (o : Oracle) (resume : Bool) (st : EngState) :
    EngState × Except String LoopResult :=
  let st := {st with is_running := true, current_iteration := 0,
                     firstIteration := none}
  match engineTryBody C cfg inp o resume st with
  | (st, .done r) => (st, .ok r)
  | (st, .raised msg) => runExceptBlock o msg st

/-! ## Engine: `run_iter` -/

/-- How the lazy sequence produced by `Engine.run_iter` ends: the
generator returns (`stopped`) or an exception propagates to the consumer
(`raised`) — `run_iter`'s `except` clause re-raises after clearing
`is_running`. -/
inductive RunEnd where
  | stopped
  | raised (msg : String)

/-- The judgment step of one `run_iter` iteration: like the `run` one but
with no progress events, and the completeness check done by the caller
after the judgment is persisted. -/
def iterJudgePhase (C : Collaborators) (cfg : EngineConfig) (inp : TaskInput)
    (o : Oracle) (i : Nat) (s : ExecutionSummary) (st : EngState) :
    EngState × Except String JudgmentResult :=
  match C.judge with
  | none => (st, .error "RuntimeError: Judgment agent not configured")
  | some hJ =>
      match hJ ⟨inp.task, inp.criteria, s, cfg.judgment_prompt⟩ with
      | .error msg => (st, .error msg)
      | .ok jr =>
          match persistJudgment o st jr i with
          | (st, some msg) => (st, .error msg)
          | (st, none) => (st, .ok jr)

/-- The summary step of one `run_iter` iteration: summarize, persist, then
yield the summary to the consumer (the middle component lists the yields of
this iteration) and judge. -/
def iterSummaryPhase (C : Collaborators) (cfg : EngineConfig) (inp : TaskInput)
    (o : Oracle) (i : Nat) (er : ExecutionResult) (st : EngState) :
    EngState × List ExecutionSummary × Except String JudgmentResult :=
  match C.summarize with
  | none => (st, [], .error "RuntimeError: Summary agent not configured")
  | some g =>
      match g er i inp.criteria with
      | .error msg => (st, [], .error msg)
      | .ok (s, ks) =>
          let st := {st with history_mem := st.history_mem ++ [s],
                             knowledge_mem := st.knowledge_mem ++ ks}
          match persistSummary o st s with
          | (st, some msg) => (st, [], .error msg)
          | (st, none) =>
              match kbPersistStep o st ks with
              | (st, some msg) => (st, [], .error msg)
              | (st, none) =>
                  let j := iterJudgePhase C cfg inp o i s st
                  (j.1, [s], j.2)

/-- The execution step of one `run_iter` iteration (no events; the same
`output.md` write as in `run`). -/
def iterExecPhase (C : Collaborators) (cfg : EngineConfig) (inp : TaskInput)
    (o : Oracle) (i : Nat) (ctx : ExecutionContext) (st : EngState) :
    EngState × List ExecutionSummary × Except String JudgmentResult :=
  match C.execute with
  | none => (st, [], .error "RuntimeError: Execution agent not configured")
  | some f =>
      let st := {st with execCalls := st.execCalls + 1}
      match f ctx with
      | .error msg => (st, [], .error msg)
      | .ok er =>
          match saveOutputMd st er.output with
          | (st, some msg) => (st, [], .error msg)
          | (st, none) => iterSummaryPhase C cfg inp o i er st

/-- The body of one `run_iter` iteration (`engine.py:540-602`): like the
`run` body but with no progress events, with the summary yielded after it
is persisted and before judgment, and with the judgment persisted before
the completeness check.  The middle component holds the summaries yielded
by this body (empty when it fails before the yield). -/
def runIterIterationBody (C : Collaborators) (cfg : EngineConfig) (inp : TaskInput)
    (o : Oracle) (i : Nat) (st : EngState) :
    EngState × List ExecutionSummary × Except String JudgmentResult :=
  let st := {st with current_iteration := i,
                     firstIteration := st.firstIteration <|> some i}
  let ctx : ExecutionContext :=
    ⟨inp.task, inp.criteria, i, getHistoryContext cfg st, getKnowledgeContext cfg st⟩
  iterExecPhase C cfg inp o i ctx st

/-- The `for iteration in range(1, max_iter + 1)` loop of
`Engine.run_iter`: cancellation stops the sequence, a complete judgment
stops the sequence, exhausting the budget stops the sequence; an exception
anywhere re-raises to the consumer after the already-yielded summaries. -/
def runIterLoop (C : Collaborators) (cfg : EngineConfig) (inp : TaskInput) (o : Oracle) :
    Nat → Nat → EngState → EngState × List ExecutionSummary × RunEnd
  | 0, _i, st => ({st with is_running := false}, [], .stopped)
  | fuel + 1, i, st =>
      if o.cancelAt i then
        ({st with is_running := false}, [], .stopped)
      else
        match runIterIterationBody C cfg inp o i st with
        | (st, ys, .error msg) => ({st with is_running := false}, ys, .raised msg)
        | (st, ys, .ok jr) =>
            if jr.is_complete then
              ({st with is_running := false}, ys, .stopped)
            else
              let r := runIterLoop C cfg inp o fuel (i + 1) st
              (r.1, ys ++ r.2.1, r.2.2)

/-- `Engine.run_iter` (`engine.py:510-608`): reset the running state; when
an intake agent is configured call it, and stop the sequence (with no
yields) only on `needs_clarification` — there is no tool-compatibility
check and no rejection check here; then run the loop from iteration 1. -/
def engineRunIter (C : Collaborators) (cfg : EngineConfig) (inp : TaskInput)
    (o : Oracle) (st : EngState) : EngState × List ExecutionSummary × RunEnd :=
  let st := {st with is_running := true, current_iteration := 0,
                     firstIteration := none}
  match C.intake with
  | none => runIterLoop C cfg inp o inp.max_iterations 1 st
  | some f =>
      match f inp.task inp.criteria with
      | .error msg => ({st with is_running := false}, [], .raised msg)
      | .ok ir =>
          if ir.status = .needs_clarification then
            ({st with is_running := false}, [], .stopped)
          else
            runIterLoop C cfg inp o inp.max_iterations 1 st

/-! ## Ghost-field preservation lemmas for the engine steps -/

/-- A history-file write touches only the store and the write counter. -/
theorem writeHistoryLine_ghost {o : Oracle} {st : EngState} {hs : HistoryStore}
    {j : Json} {st2 : EngState} {out : Option String}
    (h : writeHistoryLine o st hs j = (st2, out)) :
    st2.current_iteration = st.current_iteration
    ∧ st2.firstIteration = st.firstIteration
    ∧ st2.execCalls = st.execCalls := by
  unfold writeHistoryLine at h
  cases hf : o.appendFault st.writeCount <;> rw [hf] at h <;>
    injection h with h1 h2 <;> subst h1 <;> exact ⟨rfl, rfl, rfl⟩

/-- A knowledge-file write touches only the knowledge store and the write
counter. -/
theorem writeKnowledgeLine_ghost {o : Oracle} {st : EngState} {kb : KBStore}
    {k : Knowledge} {st2 : EngState} {out : Option String}
    (h : writeKnowledgeLine o st kb k = (st2, out)) :
    st2.current_iteration = st.current_iteration
    ∧ st2.firstIteration = st.firstIteration
    ∧ st2.execCalls = st.execCalls
    ∧ st2.store = st.store := by
  unfold writeKnowledgeLine at h
  cases hf : o.appendFault st.writeCount <;> rw [hf] at h <;>
    injection h with h1 h2 <;> subst h1 <;> exact ⟨rfl, rfl, rfl, rfl⟩

/-- `History.append` touches only the store and the write counter. -/
theorem persistSummary_ghost {o : Oracle} {st : EngState} {s : ExecutionSummary}
    {st2 : EngState} {out : Option String}
    (h : persistSummary o st s = (st2, out)) :
    st2.current_iteration = st.current_iteration
    ∧ st2.firstIteration = st.firstIteration
    ∧ st2.execCalls = st.execCalls := by
  unfold persistSummary at h
  cases hst : st.store with
  | none =>
      rw [hst] at h
      injection h with h1 h2
      subst h1
      exact ⟨rfl, rfl, rfl⟩
  | some hs =>
      rw [hst] at h
      replace h : writeHistoryLine o
          {st with store := some {hs with summaries := hs.summaries ++ [s]}}
          {hs with summaries := hs.summaries ++ [s]} (summaryRecordJson s)
          = (st2, out) := h
      have hg := writeHistoryLine_ghost h
      exact hg

/-- `History.append_judgment` touches only the store and the write
counter. -/
theorem persistJudgment_ghost {o : Oracle} {st : EngState} {jr : JudgmentResult}
    {i : Nat} {st2 : EngState} {out : Option String}
    (h : persistJudgment o st jr i = (st2, out)) :
    st2.current_iteration = st.current_iteration
    ∧ st2.firstIteration = st.firstIteration
    ∧ st2.execCalls = st.execCalls := by
  unfold persistJudgment at h
  cases hst : st.store with
  | none =>
      rw [hst] at h
      injection h with h1 h2
      subst h1
      exact ⟨rfl, rfl, rfl⟩
  | some hs =>
      rw [hst] at h
      replace h : writeHistoryLine o st hs (judgmentRecordJson jr i) = (st2, out) := h
      exact writeHistoryLine_ghost h

/-- `History.append_final_result` touches only the store and the write
counter. -/
theorem persistFinalResult_ghost {o : Oracle} {st : EngState} {r : LoopResult}
    {st2 : EngState} {out : Option String}
    (h : persistFinalResult o st r = (st2, out)) :
    st2.current_iteration = st.current_iteration
    ∧ st2.firstIteration = st.firstIteration
    ∧ st2.execCalls = st.execCalls := by
  unfold persistFinalResult at h
  cases hst : st.store with
  | none =>
      rw [hst] at h
      injection h with h1 h2
      subst h1
      exact ⟨rfl, rfl, rfl⟩
  | some hs =>
      rw [hst] at h
      replace h : writeHistoryLine o st hs (finalResultRecordJson r) = (st2, out) := h
      exact writeHistoryLine_ghost h

/-- `KnowledgeBase.add` touches only the knowledge store and the write
counter. -/
theorem kbAdd_ghost {o : Oracle} {st : EngState} {k : Knowledge}
    {st2 : EngState} {out : Option String}
    (h : kbAdd o st k = (st2, out)) :
    st2.current_iteration = st.current_iteration
    ∧ st2.firstIteration = st.firstIteration
    ∧ st2.execCalls = st.execCalls
    ∧ st2.store = st.store := by
  unfold kbAdd at h
  cases hst : st.kb with
  | none =>
      rw [hst] at h
      injection h with h1 h2
      subst h1
      exact ⟨rfl, rfl, rfl, rfl⟩
  | some kb =>
      rw [hst] at h
      replace h : writeKnowledgeLine o
          {st with kb := some {kb with items := kb.items ++ [k]}}
          {kb with items := kb.items ++ [k]} k = (st2, out) := h
      have hg := writeKnowledgeLine_ghost h
      exact hg

/-- `KnowledgeBase.add_many` touches only the knowledge store and the
write counter. -/
theorem kbAddMany_ghost {o : Oracle} :
    ∀ {ks : List Knowledge} {st st2 : EngState} {out : Option String},
      kbAddMany o st ks = (st2, out) →
      st2.current_iteration = st.current_iteration
      ∧ st2.firstIteration = st.firstIteration
      ∧ st2.execCalls = st.execCalls
      ∧ st2.store = st.store := by
  intro ks
  induction ks with
  | nil =>
      intro st st2 out h
      injection h with h1 h2
      subst h1
      exact ⟨rfl, rfl, rfl, rfl⟩
  | cons k ks ih =>
      intro st st2 out h
      unfold kbAddMany at h
      rcases hk : kbAdd o st k with ⟨st1, out1⟩
      rw [hk] at h
      have hg := kbAdd_ghost hk
      cases out1 with
      | some msg =>
          injection h with h1 h2
          subst h1
          exact hg
      | none =>
          have hih := ih h
          exact ⟨hih.1.trans hg.1, hih.2.1.trans hg.2.1,
                 hih.2.2.1.trans hg.2.2.1, hih.2.2.2.trans hg.2.2.2⟩

/-- `kbPersistStep` touches only the knowledge store and the write
counter. -/
theorem kbPersistStep_ghost {o : Oracle} {st : EngState} {ks : List Knowledge}
    {st2 : EngState} {out : Option String}
    (h : kbPersistStep o st ks = (st2, out)) :
    st2.current_iteration = st.current_iteration
    ∧ st2.firstIteration = st.firstIteration
    ∧ st2.execCalls = st.execCalls
    ∧ st2.store = st.store := by
  unfold kbPersistStep at h
  by_cases he : ks.isEmpty
  · rw [if_pos he] at h
    injection h with h1 h2
    subst h1
    exact ⟨rfl, rfl, rfl, rfl⟩
  · rw [if_neg he] at h
    exact kbAddMany_ghost h

/-- The `output.md` write never changes the engine state: with no store it
is skipped, and with a store attached the `.path` lookup raises before any
state change. -/
theorem saveOutputMd_state {st : EngState} {out : String} {st2 : EngState}
    {res : Option String} (h : saveOutputMd st out = (st2, res)) : st2 = st := by
  unfold saveOutputMd at h
  cases hst : st.store <;> rw [hst] at h <;> injection h with h1 h2 <;>
    exact h1.symm

/-- The `run` judgment phase preserves the iteration counter and the ghost
fields. -/
theorem runJudgePhase_ghost {C : Collaborators} {cfg : EngineConfig} {inp : TaskInput}
    {o : Oracle} {i : Nat} {s : ExecutionSummary} {st st2 : EngState}
    {res : Except String (ExecutionSummary × JudgmentResult)}
    (h : runJudgePhase C cfg inp o i s st = (st2, res)) :
    st2.current_iteration = st.current_iteration
    ∧ st2.firstIteration = st.firstIteration
    ∧ st2.execCalls = st.execCalls := by
  unfold runJudgePhase at h
  split at h
  · injection h with h1 h2
    subst h1
    exact ⟨rfl, rfl, rfl⟩
  · split at h
    · injection h with h1 h2
      subst h1
      exact ⟨rfl, rfl, rfl⟩
    · simp only [pushEvent] at h
      split at h
      · next st3 msg hp =>
          have hg := persistJudgment_ghost hp
          injection h with h1 h2
          subst h1
          exact hg
      · next st3 hp =>
          have hg := persistJudgment_ghost hp
          injection h with h1 h2
          subst h1
          exact hg

/-- The `run` summary phase preserves the iteration counter and the ghost
fields. -/
theorem runSummaryPhase_ghost {C : Collaborators} {cfg : EngineConfig} {inp : TaskInput}
    {o : Oracle} {i : Nat} {er : ExecutionResult} {st st2 : EngState}
    {res : Except String (ExecutionSummary × JudgmentResult)}
    (h : runSummaryPhase C cfg inp o i er st = (st2, res)) :
    st2.current_iteration = st.current_iteration
    ∧ st2.firstIteration = st.firstIteration
    ∧ st2.execCalls = st.execCalls := by
  unfold runSummaryPhase at h
  split at h
  · injection h with h1 h2
    subst h1
    exact ⟨rfl, rfl, rfl⟩
  · split at h
    · injection h with h1 h2
      subst h1
      exact ⟨rfl, rfl, rfl⟩
    · next s ks =>
      simp only [] at h
      split at h
      · next st3 msg hp =>
          have hg := persistSummary_ghost hp
          injection h with h1 h2
          subst h1
          exact hg
      · next st3 hp =>
          have hg := persistSummary_ghost hp
          split at h
          · next st4 msg hp2 =>
              have hg2 := kbPersistStep_ghost hp2
              injection h with h1 h2
              subst h1
              exact ⟨hg2.1.trans hg.1, hg2.2.1.trans hg.2.1, hg2.2.2.1.trans hg.2.2⟩
          · next st4 hp2 =>
              have hg2 := kbPersistStep_ghost hp2
              have hg3 := runJudgePhase_ghost h
              exact ⟨(hg3.1.trans hg2.1).trans hg.1,
                     (hg3.2.1.trans hg2.2.1).trans hg.2.1,
                     (hg3.2.2.trans hg2.2.2.1).trans hg.2.2⟩

/-- The `run` execution phase preserves the iteration counter and
`firstIteration`, and advances `execCalls` by exactly one when an
execution agent is configured. -/
theorem runExecPhase_ghost {C : Collaborators} {cfg : EngineConfig} {inp : TaskInput}
    {o : Oracle} {i : Nat} {ctx : ExecutionContext} {st st2 : EngState}
    {res : Except String (ExecutionSummary × JudgmentResult)}
    (h : runExecPhase C cfg inp o i ctx st = (st2, res)) :
    st2.current_iteration = st.current_iteration
    ∧ st2.firstIteration = st.firstIteration
    ∧ st.execCalls ≤ st2.execCalls
    ∧ (∀ f, C.execute = some f → st2.execCalls = st.execCalls + 1) := by
  unfold runExecPhase at h
  split at h
  · next hE =>
      injection h with h1 h2
      subst h1
      exact ⟨rfl, rfl, Nat.le_refl _, fun f hf => by rw [hE] at hf; cases hf⟩
  · next f hE =>
      simp only [] at h
      split at h
      · injection h with h1 h2
        subst h1
        exact ⟨rfl, rfl, Nat.le_succ _, fun g hg => rfl⟩
      · next er hf =>
          simp only [pushEvent] at h
          split at h
          · next st3 msg hp =>
              have hg := saveOutputMd_state hp
              subst hg
              injection h with h1 h2
              subst h1
              exact ⟨rfl, rfl, Nat.le_succ _, fun g hg => rfl⟩
          · next st3 hp =>
              have hg := saveOutputMd_state hp
              subst hg
              have hg2 := runSummaryPhase_ghost h
              refine ⟨hg2.1, hg2.2.1, ?_, fun g hgf => hg2.2.2⟩
              rw [hg2.2.2]
              exact Nat.le_succ _

/-- The `run` iteration body sets the iteration counter to `i`, marks the
first entered iteration (preserving the mark once set), and calls the
execution collaborator exactly once when it is configured. -/
theorem runIterationBody_ghost {C : Collaborators} {cfg : EngineConfig} {inp : TaskInput}
    {o : Oracle} {i : Nat} {st st2 : EngState}
    {res : Except String (ExecutionSummary × JudgmentResult)}
    (h : runIterationBody C cfg inp o i st = (st2, res)) :
    st2.current_iteration = i
    ∧ st2.firstIteration = (st.firstIteration <|> some i)
    ∧ st.execCalls ≤ st2.execCalls
    ∧ (∀ f, C.execute = some f → st2.execCalls = st.execCalls + 1) := by
  unfold runIterationBody at h
  simp only [pushEvent] at h
  have hg := runExecPhase_ghost h
  exact hg

/-- The `run_iter` judgment phase preserves the iteration counter and the
ghost fields. -/
theorem iterJudgePhase_ghost {C : Collaborators} {cfg : EngineConfig} {inp : TaskInput}
    {o : Oracle} {i : Nat} {s : ExecutionSummary} {st st2 : EngState}
    {res : Except String JudgmentResult}
    (h : iterJudgePhase C cfg inp o i s st = (st2, res)) :
    st2.current_iteration = st.current_iteration
    ∧ st2.firstIteration = st.firstIteration
    ∧ st2.execCalls = st.execCalls := by
  unfold iterJudgePhase at h
  split at h
  · injection h with h1 h2
    subst h1
    exact ⟨rfl, rfl, rfl⟩
  · split at h
    · injection h with h1 h2
      subst h1
      exact ⟨rfl, rfl, rfl⟩
    · split at h
      · next st3 msg hp =>
          have hg := persistJudgment_ghost hp
          injection h with h1 h2
          subst h1
          exact hg
      · next st3 hp =>
          have hg := persistJudgment_ghost hp
          injection h with h1 h2
          subst h1
          exact hg

/-- The `run_iter` summary phase preserves the iteration counter and the
ghost fields. -/
theorem iterSummaryPhase_ghost {C : Collaborators} {cfg : EngineConfig} {inp : TaskInput}
    {o : Oracle} {i : Nat} {er : ExecutionResult} {st st2 : EngState}
    {ys : List ExecutionSummary} {res : Except String JudgmentResult}
    (h : iterSummaryPhase C cfg inp o i er st = (st2, ys, res)) :
    st2.current_iteration = st.current_iteration
    ∧ st2.firstIteration = st.firstIteration
    ∧ st2.execCalls = st.execCalls := by
  unfold iterSummaryPhase at h
  split at h
  · injection h with h1 h2
    subst h1
    exact ⟨rfl, rfl, rfl⟩
  · split at h
    · injection h with h1 h2
      subst h1
      exact ⟨rfl, rfl, rfl⟩
    · rename_i s ks hks
      simp only [] at h
      split at h
      · next st3 msg hp =>
          have hg := persistSummary_ghost hp
          injection h with h1 h2
          subst h1
          exact hg
      · next st3 hp =>
          have hg := persistSummary_ghost hp
          split at h
          · next st4 msg hp2 =>
              have hg2 := kbPersistStep_ghost hp2
              injection h with h1 h2
              subst h1
              exact ⟨hg2.1.trans hg.1, hg2.2.1.trans hg.2.1, hg2.2.2.1.trans hg.2.2⟩
          · next st4 hp2 =>
              have hg2 := kbPersistStep_ghost hp2
              rcases hj : iterJudgePhase C cfg inp o i s st4 with ⟨st5, r⟩
              rw [hj] at h
              have hg3 := iterJudgePhase_ghost hj
              injection h with h1 h2
              subst h1
              exact ⟨(hg3.1.trans hg2.1).trans hg.1,
                     (hg3.2.1.trans hg2.2.1).trans hg.2.1,
                     (hg3.2.2.trans hg2.2.2.1).trans hg.2.2⟩

/-- The `run_iter` execution phase preserves the iteration counter and
`firstIteration`, and advances `execCalls` by exactly one when an
execution agent is configured. -/
theorem iterExecPhase_ghost {C : Collaborators} {cfg : EngineConfig} {inp : TaskInput}
    {o : Oracle} {i : Nat} {ctx : ExecutionContext} {st st2 : EngState}
    {ys : List ExecutionSummary} {res : Except String JudgmentResult}
    (h : iterExecPhase C cfg inp o i ctx st = (st2, ys, res)) :
    st2.current_iteration = st.current_iteration
    ∧ st2.firstIteration = st.firstIteration
    ∧ st.execCalls ≤ st2.execCalls
    ∧ (∀ f, C.execute = some f → st2.execCalls = st.execCalls + 1) := by
  unfold iterExecPhase at h
  split at h
  · next hE =>
      injection h with h1 h2
      subst h1
      exact ⟨rfl, rfl, Nat.le_refl _, fun f hf => by rw [hE] at hf; cases hf⟩
  · next f hE =>
      simp only [] at h
      split at h
      · injection h with h1 h2
        subst h1
        exact ⟨rfl, rfl, Nat.le_succ _, fun g hg => rfl⟩
      · next er hf =>
          split at h
          · next st3 msg hp =>
              have hg := saveOutputMd_state hp
              subst hg
              injection h with h1 h2
              subst h1
              exact ⟨rfl, rfl, Nat.le_succ _, fun g hg => rfl⟩
          · next st3 hp =>
              have hg := saveOutputMd_state hp
              subst hg
              have hg2 := iterSummaryPhase_ghost h
              refine ⟨hg2.1, hg2.2.1, ?_, fun g hgf => hg2.2.2⟩
              rw [hg2.2.2]
              exact Nat.le_succ _

/-- The `run_iter` iteration body sets the iteration counter to `i`, marks
the first entered iteration, and calls the execution collaborator exactly
once when it is configured. -/
theorem runIterIterationBody_ghost {C : Collaborators} {cfg : EngineConfig}
    {inp : TaskInput} {o : Oracle} {i : Nat} {st st2 : EngState}
    {ys : List ExecutionSummary} {res : Except String JudgmentResult}
    (h : runIterIterationBody C cfg inp o i st = (st2, ys, res)) :
    st2.current_iteration = i
    ∧ st2.firstIteration = (st.firstIteration <|> some i)
    ∧ st.execCalls ≤ st2.execCalls
    ∧ (∀ f, C.execute = some f → st2.execCalls = st.execCalls + 1) := by
  unfold runIterIterationBody at h
  simp only [] at h
  have hg := iterExecPhase_ghost h
  exact hg

/-- With no store attached, `History.append` is skipped. -/
theorem persistSummary_none {o : Oracle} {st : EngState} {s : ExecutionSummary}
    (h : st.store = none) : persistSummary o st s = (st, none) := by
  unfold persistSummary
  rw [h]

/-- With no store attached, `History.append_judgment` is skipped. -/
theorem persistJudgment_none {o : Oracle} {st : EngState} {jr : JudgmentResult}
    {i : Nat} (h : st.store = none) : persistJudgment o st jr i = (st, none) := by
  unfold persistJudgment
  rw [h]

/-- With no store attached, `History.append_final_result` is skipped. -/
theorem persistFinalResult_none {o : Oracle} {st : EngState} {r : LoopResult}
    (h : st.store = none) : persistFinalResult o st r = (st, none) := by
  unfold persistFinalResult
  rw [h]

/-- With no store attached, the `output.md` write is skipped. -/
theorem saveOutputMd_none {st : EngState} {out : String}
    (h : st.store = none) : saveOutputMd st out = (st, none) := by
  unfold saveOutputMd
  rw [h]

/-- A fault-free knowledge write never raises. -/
theorem kbAdd_nofault {o : Oracle} {st : EngState} {k : Knowledge}
    (hf : ∀ n, o.appendFault n = none) : (kbAdd o st k).2 = none := by
  unfold kbAdd
  cases hkb : st.kb with
  | none => rfl
  | some kb =>
      simp only [writeKnowledgeLine, hf]

/-- A fault-free `add_many` never raises. -/
theorem kbAddMany_nofault {o : Oracle} (hf : ∀ n, o.appendFault n = none) :
    ∀ (ks : List Knowledge) (st : EngState), (kbAddMany o st ks).2 = none := by
  intro ks
  induction ks with
  | nil => intro st; rfl
  | cons k ks ih =>
      intro st
      unfold kbAddMany
      rcases hk : kbAdd o st k with ⟨st1, out1⟩
      have h2 := @kbAdd_nofault o st k hf
      rw [hk] at h2
      simp only at h2
      subst h2
      exact ih st1

/-- Once an iteration body has run, the `run` loop preserves the recorded
first iteration through every later step and terminal branch. -/
theorem runLoop_firstIteration {C : Collaborators} {cfg : EngineConfig}
    {inp : TaskInput} {o : Oracle} :
    ∀ (fuel i : Nat) (fj : Option JudgmentResult) (st : EngState) (k : Nat),
      st.firstIteration = some k →
      ((runLoop C cfg inp o fuel i fj st).1).firstIteration = some k := by
  intro fuel
  induction fuel with
  | zero =>
      intro i fj st k hk
      simp only [runLoop]
      rcases hp : persistFinalResult o
          (pushEvent {st with is_running := false} .task_end (some inp.max_iterations))
          ⟨.max_iterations, inp.max_iterations, fj, none, cfg.persist, none⟩
        with ⟨st2, out⟩
      have hg := persistFinalResult_ghost hp
      cases out <;> exact hg.2.1.trans hk
  | succ fuel ih =>
      intro i fj st k hk
      simp only [runLoop]
      by_cases hc : o.cancelAt i
      · simp only [hc, if_true]
        rcases hp : persistFinalResult o
            (pushEvent {st with is_running := false} .task_end (some i))
            ⟨.cancelled,
             (pushEvent {st with is_running := false} .task_end (some i)).current_iteration,
             fj, none, none, none⟩
          with ⟨st2, out⟩
        have hg := persistFinalResult_ghost hp
        cases out <;> exact hg.2.1.trans hk
      · simp only [hc, if_false]
        rcases hb : runIterationBody C cfg inp o i st with ⟨stB, res⟩
        have hgb := runIterationBody_ghost hb
        have hfirst : stB.firstIteration = some k := by
          rw [hgb.2.1, hk]
          rfl
        cases res with
        | error msg => exact hfirst
        | ok p =>
            rcases p with ⟨s, jr⟩
            by_cases hcomp : jr.is_complete
            · simp only [hcomp, if_true]
              rcases hp : persistFinalResult o
                  (pushEvent {stB with is_running := false} .task_end (some i))
                  ⟨.completed, i, some jr, none, cfg.persist, none⟩
                with ⟨st2, out⟩
              have hg := persistFinalResult_ghost hp
              cases out <;> exact hg.2.1.trans hfirst
            · simp only [hcomp, if_false]
              exact ih (i + 1) (some jr) stB k hfirst

/-- Entering the loop at iteration `i` (fuel left, no cancellation) marks
`i` as the first executed iteration, whatever happens afterwards. -/
theorem runLoop_enter_first {C : Collaborators} {cfg : EngineConfig}
    {inp : TaskInput} {o : Oracle} (fuel i : Nat) (fj : Option JudgmentResult)
    (st : EngState) (hc : ¬ o.cancelAt i = true)
    (hn : st.firstIteration = none) :
    ((runLoop C cfg inp o (fuel + 1) i fj st).1).firstIteration = some i := by
  simp only [runLoop]
  rw [if_neg hc]
  rcases hb : runIterationBody C cfg inp o i st with ⟨stB, res⟩
  have hgb := runIterationBody_ghost hb
  have hfirst : stB.firstIteration = some i := by
    rw [hgb.2.1, hn]
    rfl
  cases res with
  | error msg => exact hfirst
  | ok p =>
      rcases p with ⟨s, jr⟩
      by_cases hcomp : jr.is_complete
      · simp only [hcomp, if_true]
        rcases hp : persistFinalResult o
            (pushEvent {stB with is_running := false} .task_end (some i))
            ⟨.completed, i, some jr, none, cfg.persist, none⟩
          with ⟨st2, out⟩
        have hg := persistFinalResult_ghost hp
        cases out <;> exact hg.2.1.trans hfirst
      · simp only [hcomp, if_false]
        exact runLoop_firstIteration fuel (i + 1) (some jr) stB i hfirst

/-- Without an intake agent, the `try` block of `run` enters the loop at
`startIteration` and records it as the first executed iteration. -/
theorem engineTryBody_first {C : Collaborators} {cfg : EngineConfig}
    {inp : TaskInput} {o : Oracle} {resume : Bool} {st : EngState}
    (hI : C.intake = none)
    (hc : ¬ o.cancelAt (startIteration resume st) = true)
    (hle : startIteration resume st ≤ inp.max_iterations)
    (hn : st.firstIteration = none) :
    ((engineTryBody C cfg inp o resume st).1).firstIteration
      = some (startIteration resume st) := by
  simp only [engineTryBody, intakeGate, hI]
  obtain ⟨f, hf⟩ : ∃ f, inp.max_iterations + 1 - startIteration resume st = f + 1 :=
    ⟨inp.max_iterations - startIteration resume st, by omega⟩
  rw [hf]
  exact runLoop_enter_first f (startIteration resume st) none
    (pushEvent st .task_start none) hc hn

/-- The `except` handler preserves the iteration counter and the ghost
fields. -/
theorem runExceptBlock_ghost {o : Oracle} {msg : String} {st st2 : EngState}
    {res : Except String LoopResult}
    (h : runExceptBlock o msg st = (st2, res)) :
    st2.firstIteration = st.firstIteration
    ∧ st2.current_iteration = st.current_iteration
    ∧ st2.execCalls = st.execCalls := by
  unfold runExceptBlock at h
  simp only [pushEvent] at h
  split at h
  · next st3 msg2 hp =>
      have hg := persistFinalResult_ghost hp
      injection h with h1 h2
      subst h1
      exact ⟨hg.2.1, hg.1, hg.2.2⟩
  · next st3 hp =>
      have hg := persistFinalResult_ghost hp
      injection h with h1 h2
      subst h1
      exact ⟨hg.2.1, hg.1, hg.2.2⟩

/-- `Engine.run` records `startIteration` as the first executed iteration
whenever the loop is entered (no intake agent, no cancellation at the
starting boundary, budget not already exhausted) — even if a collaborator
then fails and the run ends through the error handler. -/
theorem engineRun_firstIteration {C : Collaborators} {cfg : EngineConfig}
    {inp : TaskInput} {o : Oracle} {resume : Bool} {st : EngState}
    (hI : C.intake = none)
    (hc : ¬ o.cancelAt (startIteration resume st) = true)
    (hle : startIteration resume st ≤ inp.max_iterations) :
    ((engineRun C cfg inp o resume st).1).firstIteration
      = some (startIteration resume st) := by
  simp only [engineRun]
  have hstart : startIteration resume
      {st with is_running := true, current_iteration := 0, firstIteration := none}
      = startIteration resume st := rfl
  have hTB := @engineTryBody_first C cfg inp o resume
    {st with is_running := true, current_iteration := 0, firstIteration := none}
    hI (by rw [hstart]; exact hc) (by rw [hstart]; exact hle) rfl
  rw [hstart] at hTB
  rcases hT : engineTryBody C cfg inp o resume
      {st with is_running := true, current_iteration := 0, firstIteration := none}
    with ⟨stT, out⟩
  rw [hT] at hTB
  cases out with
  | done r => exact hTB
  | raised msg =>
      rcases hp : runExceptBlock o msg stT with ⟨st2, res⟩
      have hg := runExceptBlock_ghost hp
      have hfin : ((runExceptBlock o msg stT).1).firstIteration
          = some (startIteration resume st) := by
        rw [hp]
        exact hg.1.trans hTB
      exact hfin

/-! ## Concrete engine fixtures -/

/-- An oracle with no cancellation, no write faults, and a fixed rendering
of `traceback.format_exc()`. -/
def quietOracle : Oracle :=
  ⟨fun _ => false, fun _ => none, "Traceback (most recent call last): ..."⟩

/-- A fresh engine state with no stores attached. -/
def freshState : EngState := ⟨0, false, [], [], none, none, 0, [], 0, none⟩

/-- An engine with no collaborators configured. -/
def noAgents : Collaborators := ⟨none, none, none, none⟩

/-- A history store holding one persisted summary (iteration 1). -/
def sampleHS : HistoryStore := ⟨[], [sampleSummary], none⟩

/-- A fresh engine state over `sampleHS`. -/
def sampleStoreState : EngState :=
  ⟨0, false, [], [], some sampleHS, none, 0, [], 0, none⟩

/-- A configuration with the default allowed tools. -/
def sampleConfig : EngineConfig :=
  ⟨["Read", "Edit", "Write", "Bash"], 5, 10, none, none⟩

/-- A three-iteration task input. -/
def sampleInput : TaskInput := ⟨"task", ["crit"], 3⟩

/-! ## Claim C8 -/

/-- Claim C8: `get_last_iteration()` is 0 on an empty store and the
iteration number of the last persisted summary otherwise; with `resume`
and a store attached the engine's starting iteration is
`get_last_iteration() + 1` (also when the store is empty, since
`0 + 1 = 1`), without `resume` it is 1; and whenever the loop is entered,
the first iteration executed carries exactly that number. -/
theorem resume_start_iteration
    (C : Collaborators) (cfg : EngineConfig) (inp : TaskInput) (o : Oracle)
    (st : EngState) (hs : HistoryStore)
    (hI : C.intake = none) (hstore : st.store = some hs) :
    getLastIteration [] = 0
    ∧ (∀ (l : List ExecutionSummary) (s : ExecutionSummary),
        getLastIteration (l ++ [s]) = s.iteration)
    ∧ startIteration true st = getLastIteration hs.summaries + 1
    ∧ startIteration false st = 1
    ∧ (¬ o.cancelAt (getLastIteration hs.summaries + 1) = true →
        getLastIteration hs.summaries + 1 ≤ inp.max_iterations →
        ((engineRun C cfg inp o true st).1).firstIteration
          = some (getLastIteration hs.summaries + 1))
    ∧ (¬ o.cancelAt 1 = true → 1 ≤ inp.max_iterations →
        ((engineRun C cfg inp o false st).1).firstIteration = some 1) := by
  have hstart1 : startIteration true st = getLastIteration hs.summaries + 1 := by
    simp only [startIteration, hstore, if_true]
    split
    · rfl
    · next h => omega
  have hstart0 : startIteration false st = 1 := rfl
  refine ⟨rfl, ?_, hstart1, hstart0, ?_, ?_⟩
  · intro l s
    unfold getLastIteration
    rw [List.getLast?_concat]
  · intro hc hle
    have h := @engineRun_firstIteration C cfg inp o true st hI
      (by rw [hstart1]; exact hc) (by rw [hstart1]; exact hle)
    rw [hstart1] at h
    exact h
  · intro hc hle
    exact @engineRun_firstIteration C cfg inp o false st hI hc hle

/-- Witness for C8: an engine resumed over a store whose last summary has
iteration 1 starts (and is observed to execute first) iteration 2. -/
theorem resume_start_iteration_witness :
    startIteration true sampleStoreState = 2
    ∧ ((engineRun noAgents sampleConfig sampleInput quietOracle true
          sampleStoreState).1).firstIteration = some 2 := by
  have h := resume_start_iteration noAgents sampleConfig sampleInput quietOracle
    sampleStoreState sampleHS rfl rfl
  refine ⟨h.2.2.1, ?_⟩
  have h5 := h.2.2.2.2.1 (by decide) (by decide)
  simpa using h5

/-! ## Claim C3 -/

/-- Claim C3, amended: for an intake result with status `rejected`,
`Engine.run` emits `task_end` and returns `LoopResult(error,
iterations_used=0)` carrying the intake result, and the Execution
collaborator is never called (the state is unchanged except for
`is_running` and the three gate events) — but the rejection is reported
only when the proposed tool set is compatible or empty: the engine checks
tool compatibility BEFORE the rejected status, so only
`needs_clarification` bypasses the tool check, and a rejected intake
proposing missing tools yields the tool-mismatch error result instead of
the rejection report. -/
theorem rejected_intake_gate
    (C : Collaborators) (cfg : EngineConfig) (inp : TaskInput) (o : Oracle)
    (st : EngState) (f : String → List String → Except String IntakeResult)
    (ir : IntakeResult)
    (hf : C.intake = some f) (hr : f inp.task inp.criteria = Except.ok ir)
    (hstat : ir.status = IntakeStatus.rejected) :
    (missingToolsList cfg ir = [] →
      engineRun C cfg inp o false st
        = ({st with is_running := false, current_iteration := 0,
                    firstIteration := none,
                    events := st.events ++ [⟨.task_start, none⟩, ⟨.intake_complete, none⟩,
                                            ⟨.task_end, none⟩]},
           Except.ok ⟨.error, 0, none, some ir, none,
              some ("Task rejected: " ++ ir.rejection_reason.getD "Unknown reason")⟩))
    ∧ (missingToolsList cfg ir ≠ [] →
      engineRun C cfg inp o false st
        = ({st with is_running := false, current_iteration := 0,
                    firstIteration := none,
                    events := st.events ++ [⟨.task_start, none⟩, ⟨.intake_complete, none⟩,
                                            ⟨.task_end, none⟩]},
           Except.ok ⟨.error, 0, none, some ir, none,
              some (toolMismatchMessage cfg ir)⟩)) := by
  constructor
  · intro hmiss
    by_cases ht : ir.suggested_tools.isEmpty
    · simp [engineRun, engineTryBody, intakeGate, hf, hr, hstat, ht,
            rejectedGate, pushEvent]
    · simp [engineRun, engineTryBody, intakeGate, hf, hr, hstat, ht, hmiss,
            rejectedGate, pushEvent]
  · intro hmiss
    have hm2 : (missingToolsList cfg ir).isEmpty = false := by
      cases hml : missingToolsList cfg ir with
      | nil => exact absurd hml hmiss
      | cons a l => rfl
    have hsne : ir.suggested_tools.isEmpty = false := by
      cases hsl : ir.suggested_tools with
      | nil =>
          exfalso
          apply hmiss
          unfold missingToolsList
          rw [hsl]
          rfl
      | cons a l => rfl
    simp [engineRun, engineTryBody, intakeGate, hf, hr, hstat, hsne, hm2,
          pushEvent]

/-- A rejected intake result proposing no tools. -/
def rejectedIntake : IntakeResult :=
  ⟨.rejected, "t", ["c"], [], some "unsafe request", none, []⟩

/-- A rejected intake result proposing a tool outside the allowed set. -/
def rejectedToolsIntake : IntakeResult :=
  ⟨.rejected, "t", ["c"], [], some "unsafe request", none, ["WebSearch"]⟩

/-- An engine whose only collaborator is an intake agent returning `ir`. -/
def intakeOnly (ir : IntakeResult) : Collaborators :=
  ⟨some (fun _ _ => .ok ir), none, none, none⟩

/-- A configuration allowing no tools at all. -/
def emptyToolsConfig : EngineConfig := ⟨[], 5, 10, none, none⟩

/-- Witness for C3: a rejected intake proposing no tools produces the
rejection result. -/
theorem rejected_intake_gate_witness :
    (engineRun (intakeOnly rejectedIntake) sampleConfig sampleInput quietOracle
        false freshState).2
      = Except.ok ⟨.error, 0, none, some rejectedIntake, none,
          some "Task rejected: unsafe request"⟩ := by
  have h := rejected_intake_gate (intakeOnly rejectedIntake) sampleConfig
    sampleInput quietOracle freshState (fun _ _ => .ok rejectedIntake)
    rejectedIntake rfl rfl rfl
  have h1 := h.1 rfl
  rw [h1]
  rfl

/-- Counterexample to C3 as stated: a rejected intake proposing a
disallowed tool is answered with the tool-mismatch error, not the
rejection — the rejected outcome is NOT decided before `tool_check`. -/
theorem rejected_intake_reports_tool_mismatch :
    (engineRun (intakeOnly rejectedToolsIntake) emptyToolsConfig sampleInput
        quietOracle false freshState).2
      = Except.ok ⟨.error, 0, none, some rejectedToolsIntake, none,
          some "Tool mismatch: required tools [WebSearch] are not in allowed_tools []"⟩
    ∧ ¬ (engineRun (intakeOnly rejectedToolsIntake) emptyToolsConfig sampleInput
        quietOracle false freshState).2
      = Except.ok ⟨.error, 0, none, some rejectedToolsIntake, none,
          some "Task rejected: unsafe request"⟩ := by
  refine ⟨rfl, ?_⟩
  intro hcontra
  rw [show (engineRun (intakeOnly rejectedToolsIntake) emptyToolsConfig sampleInput
        quietOracle false freshState).2
      = Except.ok ⟨.error, 0, none, some rejectedToolsIntake, none,
          some "Tool mismatch: required tools [WebSearch] are not in allowed_tools []"⟩
      from rfl] at hcontra
  injection hcontra with h4
  simp at h4

/-! ## Claim C1 -/

/-- With no store attached at the moment of failure, the `except` handler
returns the error `LoopResult` built from the state at the failure. -/
theorem runExceptBlock_result_none {o : Oracle} {msg : String} {st : EngState}
    (h : st.store = none) :
    runExceptBlock o msg st
      = (pushEvent {st with is_running := false} .task_end
           (if st.current_iteration > 0 then some st.current_iteration else none),
         Except.ok ⟨.error, st.current_iteration, none, none, none,
            some (msg ++ "\n\nStack trace:\n" ++ o.traceText)⟩) := by
  have hp := @persistFinalResult_none o
    (pushEvent {st with is_running := false} .task_end
      (if st.current_iteration > 0 then some st.current_iteration else none))
    ⟨.error, st.current_iteration, none, none, none,
     some (msg ++ "\n\nStack trace:\n" ++ o.traceText)⟩ h
  simp only [runExceptBlock, pushEvent] at hp ⊢
  rw [hp]

/-- Claim C1, amended: whenever an uncaught exception (from a collaborator
call, a store write or the `output.md` write) aborts the `try` block of
`Engine.run` and the best-effort terminal write does not itself fail (here:
no store attached), `run` returns a `LoopResult` with status `error` whose
`error_message` is the exception message followed by `"\n\nStack trace:\n"`
and the rendered traceback (hence non-empty and containing a trace) — but
whose `iterations_used` equals the engine's `_current_iteration` at the
moment of failure, i.e. the iteration IN PROGRESS (last completed + 1 when
the failure happened mid-iteration; 0 when it preceded the loop), not the
number of fully completed iterations. -/
theorem run_error_result
    (C : Collaborators) (cfg : EngineConfig) (inp : TaskInput) (o : Oracle)
    (resume : Bool) (st : EngState) (msg : String)
    (h1 : (engineTryBody C cfg inp o resume
            {st with is_running := true, current_iteration := 0,
                     firstIteration := none}).2
          = LoopOutcome.raised msg)
    (h2 : ((engineTryBody C cfg inp o resume
            {st with is_running := true, current_iteration := 0,
                     firstIteration := none}).1).store = none) :
    ∃ st2, engineRun C cfg inp o resume st
      = (st2, Except.ok ⟨.error,
          ((engineTryBody C cfg inp o resume
            {st with is_running := true, current_iteration := 0,
                     firstIteration := none}).1).current_iteration,
          none, none, none,
          some (msg ++ "\n\nStack trace:\n" ++ o.traceText)⟩) := by
  simp only [engineRun]
  rcases hT : engineTryBody C cfg inp o resume
      {st with is_running := true, current_iteration := 0, firstIteration := none}
    with ⟨stT, out⟩
  rw [hT] at h1 h2
  simp only at h1 h2
  subst h1
  refine ⟨pushEvent {stT with is_running := false} .task_end
      (if stT.current_iteration > 0 then some stT.current_iteration else none), ?_⟩
  show runExceptBlock o msg stT = _
  rw [runExceptBlock_result_none h2]

/-- An engine whose execution collaborator raises on every call. -/
def failingExec : Collaborators :=
  ⟨none, some (fun _ => .error "boom"), none, none⟩

/-- Witness for C1: the execution collaborator raising `"boom"` during
iteration 1 makes `run` return the error result built by the handler. -/
theorem run_error_result_witness :
    ∃ st2, engineRun failingExec sampleConfig sampleInput quietOracle false freshState
      = (st2, Except.ok ⟨.error,
          ((engineTryBody failingExec sampleConfig sampleInput quietOracle false
            {freshState with is_running := true, current_iteration := 0,
                             firstIteration := none}).1).current_iteration,
          none, none, none,
          some ("boom" ++ "\n\nStack trace:\n" ++ quietOracle.traceText)⟩) :=
  run_error_result failingExec sampleConfig sampleInput quietOracle false
    freshState "boom" rfl rfl

/-- Counterexample to C1 as stated: when execution raises during iteration
1, `iterations_used` is 1 — the iteration in progress — although zero
iterations were completed (no summary was recorded and no `iteration_end`
was emitted). -/
theorem run_error_counts_inflight_iteration :
    ((engineRun failingExec sampleConfig sampleInput quietOracle false
        freshState).2.toOption.map (fun r => r.iterations_used)) = some 1
    ∧ ((engineRun failingExec sampleConfig sampleInput quietOracle false
        freshState).1).history_mem = []
    ∧ ((engineRun failingExec sampleConfig sampleInput quietOracle false
        freshState).1).events
      = [⟨.task_start, none⟩, ⟨.iteration_start, some 1⟩, ⟨.task_end, some 1⟩] :=
  ⟨rfl, rfl, rfl⟩

/-! ## Claim C2 -/

/-- An accepted intake proposing no tools. -/
def okIntake : IntakeResult := ⟨.accepted, "t", ["c"], [], none, none, []⟩

/-- A judgment declaring completion (valid: no unmet evaluations). -/
def okJudgment : JudgmentResult := ⟨true, [], "done", none⟩

/-- Collaborators that all succeed: execution returns raw output text, the
summary is `sampleSummary` at the current iteration with no knowledge, and
judgment completes immediately. -/
def healthyCollab : Collaborators :=
  ⟨some (fun _ _ => .ok okIntake),
   some (fun _ => .ok ⟨.success, "raw output text", []⟩),
   some (fun _ i _ => .ok ({sampleSummary with iteration := i}, [])),
   some (fun _ => .ok okJudgment)⟩

/-- A fresh engine state over an empty history store. -/
def emptyStoreState : EngState :=
  ⟨0, false, [], [], some ⟨[], [], none⟩, none, 0, [], 0, none⟩

/-- Claim C2 (code defect): with a History store attached and every
collaborator succeeding, `Engine.run` does NOT write `output.md` — the
attribute lookup `self._history_store.path` raises `AttributeError`
(`History` defines only `_path`), the iteration never reaches the Summary
step, and the run returns an error `LoopResult` for iteration 1 while
`output.md` is never created.  The repo's own tests
(`test_output_md_saved_after_run` and neighbours) assert the opposite,
matching the claim: the code, not the claim, is wrong. -/
theorem output_md_write_raises :
    (engineRun healthyCollab sampleConfig sampleInput quietOracle false
        emptyStoreState).2
      = Except.ok ⟨.error, 1, none, none, none,
          some ("AttributeError: History object has no attribute path"
            ++ "\n\nStack trace:\n" ++ quietOracle.traceText)⟩
    ∧ ((engineRun healthyCollab sampleConfig sampleInput quietOracle false
        emptyStoreState).1).store.map (fun hs => hs.outputFile) = some none
    ∧ ((engineRun healthyCollab sampleConfig sampleInput quietOracle false
        emptyStoreState).1).history_mem = [] :=
  ⟨rfl, rfl, rfl⟩

/-! ## Claim C10 -/

/-- The `run_iter` loop never decreases the execution-call counter. -/
theorem runIterLoop_execCalls {C : Collaborators} {cfg : EngineConfig}
    {inp : TaskInput} {o : Oracle} :
    ∀ (fuel i : Nat) (st : EngState),
      st.execCalls ≤ ((runIterLoop C cfg inp o fuel i st).1).execCalls := by
  intro fuel
  induction fuel with
  | zero =>
      intro i st
      exact Nat.le_refl _
  | succ fuel ih =>
      intro i st
      simp only [runIterLoop]
      by_cases hc : o.cancelAt i = true
      · rw [if_pos hc]
      · rw [if_neg hc]
        rcases hb : runIterIterationBody C cfg inp o i st with ⟨stB, ys, res⟩
        have hgb := runIterIterationBody_ghost hb
        cases res with
        | error msg => exact hgb.2.2.1
        | ok jr =>
            by_cases hcomp : jr.is_complete
            · simp only [hcomp, if_true]
              exact hgb.2.2.1
            · simp only [hcomp, if_false]
              exact hgb.2.2.1.trans (ih (i + 1) stB)

/-- Entering the `run_iter` loop with an execution agent configured calls
it at least once. -/
theorem runIterLoop_enter_execCalls {C : Collaborators} {cfg : EngineConfig}
    {inp : TaskInput} {o : Oracle} (fuel i : Nat) (st : EngState)
    (hc : ¬ o.cancelAt i = true) (fE : ExecutionContext → Except String ExecutionResult)
    (hE : C.execute = some fE) :
    st.execCalls + 1 ≤ ((runIterLoop C cfg inp o (fuel + 1) i st).1).execCalls := by
  simp only [runIterLoop]
  rw [if_neg hc]
  rcases hb : runIterIterationBody C cfg inp o i st with ⟨stB, ys, res⟩
  have hgb := runIterIterationBody_ghost hb
  have hE1 : stB.execCalls = st.execCalls + 1 := hgb.2.2.2 fE hE
  cases res with
  | error msg => exact hE1.ge
  | ok jr =>
      by_cases hcomp : jr.is_complete
      · simp only [hcomp, if_true]
        exact hE1.ge
      · simp only [hcomp, if_false]
        exact hE1.ge.trans (runIterLoop_execCalls fuel (i + 1) stB)

/-- Claim C10: `Engine.run_iter` applies no rejection gate and no
tool-compatibility gate.  Of the intake outcomes, only
`needs_clarification` stops `run_iter` before any iteration (no yields, no
execution call); for every other intake result — including a rejected one
or one proposing tools outside the allowed set — `run_iter` proceeds
directly into the full loop from iteration 1 with the whole budget, and
calls the Execution collaborator whenever one is configured and the first
boundary is not cancelled. -/
theorem run_iter_no_rejection_or_tool_gate
    (C : Collaborators) (cfg : EngineConfig) (inp : TaskInput) (o : Oracle)
    (st : EngState) (f : String → List String → Except String IntakeResult)
    (ir : IntakeResult)
    (hf : C.intake = some f) (hr : f inp.task inp.criteria = Except.ok ir) :
    (ir.status = .needs_clarification →
      engineRunIter C cfg inp o st
        = ({st with is_running := false, current_iteration := 0,
                    firstIteration := none}, [], .stopped))
    ∧ (ir.status ≠ .needs_clarification →
      engineRunIter C cfg inp o st
        = runIterLoop C cfg inp o inp.max_iterations 1
            {st with is_running := true, current_iteration := 0,
                     firstIteration := none})
    ∧ (ir.status ≠ .needs_clarification → ¬ o.cancelAt 1 = true →
        1 ≤ inp.max_iterations →
        ∀ fE, C.execute = some fE →
        st.execCalls + 1 ≤ ((engineRunIter C cfg inp o st).1).execCalls) := by
  refine ⟨?_, ?_, ?_⟩
  · intro h
    simp [engineRunIter, hf, hr, h]
  · intro h
    simp [engineRunIter, hf, hr, h]
  · intro h hc hle fE hE
    have h2 : engineRunIter C cfg inp o st
        = runIterLoop C cfg inp o inp.max_iterations 1
            {st with is_running := true, current_iteration := 0,
                     firstIteration := none} := by
      simp [engineRunIter, hf, hr, h]
    rw [h2]
    obtain ⟨m, hm⟩ : ∃ m, inp.max_iterations = m + 1 :=
      ⟨inp.max_iterations - 1, by omega⟩
    rw [hm]
    have h3 := @runIterLoop_enter_execCalls C cfg inp o m 1
      ({st with is_running := true, current_iteration := 0, firstIteration := none})
      hc fE hE
    exact h3

/-- Collaborators with a rejected, tool-incompatible intake but healthy
execution, summary and judgment. -/
def rejectedToolsCollab : Collaborators :=
  ⟨some (fun _ _ => .ok rejectedToolsIntake), healthyCollab.execute,
   healthyCollab.summarize, healthyCollab.judge⟩

/-- Witness for C10: with a rejected intake proposing a disallowed tool,
`run_iter` still enters the loop and invokes the Execution collaborator
(exactly once here, since judgment completes on iteration 1). -/
theorem run_iter_no_rejection_or_tool_gate_witness :
    engineRunIter rejectedToolsCollab emptyToolsConfig sampleInput quietOracle
        freshState
      = runIterLoop rejectedToolsCollab emptyToolsConfig sampleInput quietOracle
          sampleInput.max_iterations 1
          {freshState with is_running := true, current_iteration := 0,
                           firstIteration := none}
    ∧ freshState.execCalls + 1
        ≤ ((engineRunIter rejectedToolsCollab emptyToolsConfig sampleInput
            quietOracle freshState).1).execCalls
    ∧ ((engineRunIter rejectedToolsCollab emptyToolsConfig sampleInput quietOracle
        freshState).1).execCalls = 1 := by
  have h := run_iter_no_rejection_or_tool_gate rejectedToolsCollab emptyToolsConfig
    sampleInput quietOracle freshState (fun _ _ => .ok rejectedToolsIntake)
    rejectedToolsIntake rfl rfl
  exact ⟨h.2.1 (by decide), h.2.2 (by decide) (by decide) (by decide) _ rfl, rfl⟩

/-! ## Claim C6 -/

/-- A fault-free `kbPersistStep` never raises. -/
theorem kbPersistStep_nofault {o : Oracle} {st : EngState} {ks : List Knowledge}
    (hf : ∀ n, o.appendFault n = none) : (kbPersistStep o st ks).2 = none := by
  unfold kbPersistStep
  by_cases he : ks.isEmpty
  · rw [if_pos he]
  · rw [if_neg he]
    exact kbAddMany_nofault hf ks st

/-- With a succeeding judgment collaborator and no store, the `run_iter`
judgment phase returns the judgment unchanged. -/
theorem iterJudgePhase_success {C : Collaborators} {cfg : EngineConfig}
    {inp : TaskInput} {o : Oracle} {i : Nat} {s : ExecutionSummary} {st : EngState}
    {fJ : JudgmentContext → Except String JudgmentResult} {jr : JudgmentResult}
    (hJ : C.judge = some fJ)
    (hjr : fJ ⟨inp.task, inp.criteria, s, cfg.judgment_prompt⟩ = .ok jr)
    (hstore : st.store = none) :
    iterJudgePhase C cfg inp o i s st = (st, .ok jr) := by
  simp only [iterJudgePhase, hJ, hjr, persistJudgment_none hstore]

/-- With succeeding summary and judgment collaborators, no store and no
write faults, the `run_iter` summary phase yields exactly one summary and
returns a judgment. -/
theorem iterSummaryPhase_success {C : Collaborators} {cfg : EngineConfig}
    {inp : TaskInput} {o : Oracle} {i : Nat} {er : ExecutionResult} {st : EngState}
    {fS : ExecutionResult → Nat → List String →
      Except String (ExecutionSummary × List Knowledge)}
    {fJ : JudgmentContext → Except String JudgmentResult}
    {s : ExecutionSummary} {ks : List Knowledge}
    (hS : C.summarize = some fS) (hsm : fS er i inp.criteria = .ok (s, ks))
    (hJ : C.judge = some fJ)
    (hJok : ∀ jc, ∃ jr, fJ jc = .ok jr)
    (hfault : ∀ n, o.appendFault n = none)
    (hstore : st.store = none) :
    ∃ st2 jr, iterSummaryPhase C cfg inp o i er st = (st2, [s], .ok jr)
      ∧ st2.store = none ∧ st2.current_iteration = st.current_iteration := by
  have hps := @persistSummary_none o
    {st with history_mem := st.history_mem ++ [s],
             knowledge_mem := st.knowledge_mem ++ ks} s hstore
  rcases hk : kbPersistStep o
      {st with history_mem := st.history_mem ++ [s],
               knowledge_mem := st.knowledge_mem ++ ks} ks with ⟨st3, out⟩
  have hkn := @kbPersistStep_nofault o
    {st with history_mem := st.history_mem ++ [s],
             knowledge_mem := st.knowledge_mem ++ ks} ks hfault
  rw [hk] at hkn
  simp only at hkn
  subst hkn
  have hg3 := kbPersistStep_ghost hk
  have hst3 : st3.store = none := hg3.2.2.2.trans hstore
  obtain ⟨jr, hjr⟩ := hJok ⟨inp.task, inp.criteria, s, cfg.judgment_prompt⟩
  have hjs := @iterJudgePhase_success C cfg inp o i s st3 fJ jr hJ hjr hst3
  refine ⟨st3, jr, ?_, hst3, hg3.1.trans rfl⟩
  simp only [iterSummaryPhase, hS, hsm, hps, hk, hjs]

/-- With a succeeding execution collaborator and no store, the `run_iter`
execution phase advances to the summary phase. -/
theorem iterExecPhase_success {C : Collaborators} {cfg : EngineConfig}
    {inp : TaskInput} {o : Oracle} {i : Nat} {ctx : ExecutionContext} {st : EngState}
    {fE : ExecutionContext → Except String ExecutionResult} {er : ExecutionResult}
    (hE : C.execute = some fE) (her : fE ctx = .ok er)
    (hstore : st.store = none) :
    iterExecPhase C cfg inp o i ctx st
      = iterSummaryPhase C cfg inp o i er {st with execCalls := st.execCalls + 1} := by
  have hsv := @saveOutputMd_none {st with execCalls := st.execCalls + 1}
    er.output hstore
  simp only [iterExecPhase, hE, her, hsv]

/-- With all three loop collaborators present and succeeding, no store and
no write faults, the `run_iter` body yields exactly one summary and ends
with a judgment. -/
theorem runIterIterationBody_success {C : Collaborators} {cfg : EngineConfig}
    {inp : TaskInput} {o : Oracle} {i : Nat} {st : EngState}
    {fE : ExecutionContext → Except String ExecutionResult}
    {fS : ExecutionResult → Nat → List String →
      Except String (ExecutionSummary × List Knowledge)}
    {fJ : JudgmentContext → Except String JudgmentResult}
    (hE : C.execute = some fE) (hS : C.summarize = some fS) (hJ : C.judge = some fJ)
    (hEok : ∀ ctx, ∃ r, fE ctx = .ok r)
    (hSok : ∀ er i cr, ∃ p, fS er i cr = .ok p)
    (hJok : ∀ jc, ∃ jr, fJ jc = .ok jr)
    (hfault : ∀ n, o.appendFault n = none)
    (hstore : st.store = none) :
    ∃ st2 s jr, runIterIterationBody C cfg inp o i st = (st2, [s], .ok jr)
      ∧ st2.store = none ∧ st2.current_iteration = i := by
  obtain ⟨er, her⟩ := hEok ⟨inp.task, inp.criteria, i,
    getHistoryContext cfg {st with current_iteration := i,
                                   firstIteration := st.firstIteration <|> some i},
    getKnowledgeContext cfg {st with current_iteration := i,
                                     firstIteration := st.firstIteration <|> some i}⟩
  obtain ⟨⟨s, ks⟩, hsm⟩ := hSok er i inp.criteria
  obtain ⟨st2, jr, hsum, hst2store, hst2cur⟩ :=
    @iterSummaryPhase_success C cfg inp o i er
      {st with current_iteration := i,
               firstIteration := st.firstIteration <|> some i,
               execCalls := st.execCalls + 1}
      fS fJ s ks hS hsm hJ hJok hfault hstore
  refine ⟨st2, s, jr, ?_, hst2store, hst2cur⟩
  simp only [runIterIterationBody]
  rw [@iterExecPhase_success C cfg inp o i _
    {st with current_iteration := i, firstIteration := st.firstIteration <|> some i}
    fE er hE her hstore]
  exact hsum

/-- With all three loop collaborators present and succeeding, no store and
no write faults, the `run_iter` loop always stops (never raises), yielding
one summary per iteration entered. -/
theorem runIterLoop_success {C : Collaborators} {cfg : EngineConfig}
    {inp : TaskInput} {o : Oracle}
    {fE : ExecutionContext → Except String ExecutionResult}
    {fS : ExecutionResult → Nat → List String →
      Except String (ExecutionSummary × List Knowledge)}
    {fJ : JudgmentContext → Except String JudgmentResult}
    (hE : C.execute = some fE) (hS : C.summarize = some fS) (hJ : C.judge = some fJ)
    (hEok : ∀ ctx, ∃ r, fE ctx = .ok r)
    (hSok : ∀ er i cr, ∃ p, fS er i cr = .ok p)
    (hJok : ∀ jc, ∃ jr, fJ jc = .ok jr)
    (hfault : ∀ n, o.appendFault n = none) :
    ∀ (fuel i : Nat) (st : EngState), st.store = none →
      st.current_iteration + 1 = i →
      ∃ st2 ys, runIterLoop C cfg inp o fuel i st = (st2, ys, .stopped)
        ∧ st2.current_iteration = st.current_iteration + ys.length
        ∧ ys.length ≤ fuel ∧ st2.store = none := by
  intro fuel
  induction fuel with
  | zero =>
      intro i st hstore hcur
      exact ⟨{st with is_running := false}, [], rfl, by simp, by simp, hstore⟩
  | succ fuel ih =>
      intro i st hstore hcur
      simp only [runIterLoop]
      by_cases hc : o.cancelAt i = true
      · rw [if_pos hc]
        exact ⟨{st with is_running := false}, [], rfl, by simp, by simp, hstore⟩
      · rw [if_neg hc]
        obtain ⟨stB, s, jr, hb, hstoreB, hcurB⟩ :=
          runIterIterationBody_success hE hS hJ hEok hSok hJok hfault hstore
            (i := i)
        rw [hb]
        by_cases hcomp : jr.is_complete
        · simp only [hcomp, if_true]
          exact ⟨{stB with is_running := false}, [s], rfl,
                 by simp [hcurB, ← hcur], by simp, hstoreB⟩
        · simp only [hcomp, if_false]
          obtain ⟨st2, ys2, hrec, hcur2, hlen2, hstore2⟩ :=
            ih (i + 1) stB hstoreB (by rw [hcurB])
          rw [hrec]
          refine ⟨st2, s :: ys2, rfl, ?_, ?_, hstore2⟩
          · rw [hcur2, hcurB, ← hcur]
            simp [Nat.add_assoc, Nat.add_comm 1 ys2.length]
          · simpa using Nat.succ_le_succ hlen2

/-- Claim C6, amended: `run_iter` yields one `ExecutionSummary` per
iteration entered, and the lazy sequence stops WITHOUT raising when the
loop terminates by completion, budget exhaustion, cancellation or a
`needs_clarification` intake (formalized here for runs whose collaborators
and store writes do not themselves raise, with no history store attached —
see C2 for the store-attached defect); an exception from a collaborator or
a store write is NOT absorbed: `run_iter` re-raises it to the consumer, so
the `error` terminal outcome raises rather than stopping the sequence. -/
theorem run_iter_terminal_behavior
    (C : Collaborators) (cfg : EngineConfig) (inp : TaskInput) (o : Oracle)
    (st : EngState)
    (fE : ExecutionContext → Except String ExecutionResult)
    (fS : ExecutionResult → Nat → List String →
      Except String (ExecutionSummary × List Knowledge))
    (fJ : JudgmentContext → Except String JudgmentResult)
    (hE : C.execute = some fE) (hS : C.summarize = some fS) (hJ : C.judge = some fJ)
    (hEok : ∀ ctx, ∃ r, fE ctx = .ok r)
    (hSok : ∀ er i cr, ∃ p, fS er i cr = .ok p)
    (hJok : ∀ jc, ∃ jr, fJ jc = .ok jr)
    (hfault : ∀ n, o.appendFault n = none)
    (hstore : st.store = none)
    (hI : C.intake = none
        ∨ ∃ f ir, C.intake = some f ∧ f inp.task inp.criteria = Except.ok ir) :
    ∃ st2 ys, engineRunIter C cfg inp o st = (st2, ys, RunEnd.stopped)
      ∧ ys.length = st2.current_iteration
      ∧ ys.length ≤ inp.max_iterations := by
  have hloop := @runIterLoop_success C cfg inp o fE fS fJ hE hS hJ hEok hSok hJok
    hfault inp.max_iterations 1
    {st with is_running := true, current_iteration := 0, firstIteration := none}
    hstore rfl
  obtain ⟨st2, ys, hrun, hcur, hlen, _⟩ := hloop
  rcases hI with hIn | ⟨f, ir, hIf, hir⟩
  · refine ⟨st2, ys, ?_, ?_, hlen⟩
    · simp only [engineRunIter, hIn]
      exact hrun
    · simpa using hcur.symm
  · by_cases hst : ir.status = .needs_clarification
    · refine ⟨{st with is_running := false, current_iteration := 0,
                       firstIteration := none}, [], ?_, rfl, by simp⟩
      simp [engineRunIter, hIf, hir, hst]
    · refine ⟨st2, ys, ?_, ?_, hlen⟩
      · simp only [engineRunIter, hIf, hir, if_neg hst]
        exact hrun
      · simpa using hcur.symm

/-- Witness for C6: healthy collaborators over a store-free engine stop
the sequence after one yielded summary (judgment completes at once). -/
theorem run_iter_terminal_behavior_witness :
    ∃ st2 ys, engineRunIter healthyCollab sampleConfig sampleInput quietOracle
        freshState = (st2, ys, RunEnd.stopped)
      ∧ ys.length = st2.current_iteration
      ∧ ys.length ≤ sampleInput.max_iterations :=
  run_iter_terminal_behavior healthyCollab sampleConfig sampleInput quietOracle
    freshState _ _ _ rfl rfl rfl
    (fun _ => ⟨_, rfl⟩) (fun _ _ _ => ⟨_, rfl⟩) (fun _ => ⟨_, rfl⟩)
    (fun _ => rfl) rfl
    (Or.inr ⟨_, okIntake, rfl, rfl⟩)

/-- Counterexample to C6 as stated: a collaborator exception is a terminal
`error` outcome, yet `run_iter` raises it to the consumer instead of
stopping the sequence — the sequence ends `raised "boom"`, not `stopped`. -/
theorem run_iter_raises_on_collaborator_error :
    (engineRunIter failingExec sampleConfig sampleInput quietOracle
        freshState).2.2 = RunEnd.raised "boom"
    ∧ (engineRunIter failingExec sampleConfig sampleInput quietOracle
        freshState).2.1 = [] :=
  ⟨rfl, rfl⟩
